import Mathlib

/-!
Verification of the PMA vertex-candidate component
(`RecoAlg/PMAlg/PmaVtxCandidate.cxx`).

The C++ class `pma::VtxCandidate` is shallowly embedded here.  Machine
doubles are modelled by exact rationals.  The transcendental primitives
(`sqrt`, `asin`, `acos`, `TMath::Pi()`) and the external collaborators
(track graph, geometry service, least-squares line solver) live outside
this translation unit, so they are fields of an explicit environment
structure `Ext` (respectively `JExt` for the graph surgery used by
`JoinTracks`); every in-file function is a direct transcription of the
corresponding C++ member of `pma::VtxCandidate`.
-/

namespace PmaVtx

/-- 3D point with rational coordinates (models `TVector3`). -/
structure Vec3 where
  x : ℚ
  y : ℚ
  z : ℚ
deriving DecidableEq

/-- 2D point (models `TVector2`, used for plane projections). -/
structure Vec2 where
  x : ℚ
  y : ℚ
deriving DecidableEq

def vsub (a b : Vec3) : Vec3 := ⟨a.x - b.x, a.y - b.y, a.z - b.z⟩

def vadd (a b : Vec3) : Vec3 := ⟨a.x + b.x, a.y + b.y, a.z + b.z⟩

def smul (q : ℚ) (a : Vec3) : Vec3 := ⟨q * a.x, q * a.y, q * a.z⟩

def dot (a b : Vec3) : ℚ := a.x * b.x + a.y * b.y + a.z * b.z

/-- Modelled from the spec: `pma::Dist2` (in `Utilities.cxx`, outside `src/`)
is the squared euclidean distance between two 3D points. -/
def dist2 (a b : Vec3) : ℚ := dot (vsub a b) (vsub a b)

/-- Modelled from the spec: `pma::GetSegmentProjVector` (in `Utilities.cxx`,
outside `src/`) returns the projection fraction `f` of a point onto the
segment `a`-`b`; `f` in `[0,1]` means the point projects between the two
endpoints. -/
def getSegmentProjVector (p a b : Vec3) : ℚ :=
  dot (vsub p a) (vsub b a) / dist2 a b

/-- Modelled from the spec: `pma::GetProjectionToSegment` (in
`Utilities.cxx`, outside `src/`) returns the 3D point of the segment
`a`-`b` closest to `p` (projection fraction clamped to `[0,1]`). -/
def getProjectionToSegment (p a b : Vec3) : Vec3 :=
  let f := getSegmentProjVector p a b
  let fc := if f < 0 then 0 else if 1 < f then 1 else f
  vadd a (smul fc (vsub b a))

/-- Modelled from the spec: `pma::Segment3D::GetDistance2To(TVector3)`
(outside `src/`) is the squared distance from a 3D point to the segment
(its point-to-line/point-to-segment distance query). -/
def segDistance2To (p a b : Vec3) : ℚ := dist2 p (getProjectionToSegment p a b)

/-- One node of a track: a 3D point plus its detector volume ids
(`pma::Node3D::Point3D/TPC/Cryo`). -/
structure NodeData where
  point : Vec3
  tpc : ℤ
  cryo : ℤ
deriving DecidableEq

def defaultNode : NodeData := ⟨⟨0, 0, 0⟩, 0, 0⟩

/-- A `pma::TrkCandidate`: identity of the referenced `pma::Track3D`
object plus the candidate key. -/
structure TrkCandidate where
  trk : ℕ
  key : ℤ
deriving DecidableEq

/-- External read-only collaborators of the candidate: track geometry,
transcendental primitives, the least-squares solver, the track-graph
membership queries, and the detector-geometry service. -/
structure Ext where
  /-- `pma::Track3D::Nodes()` of the track with a given identity. -/
  nodesOf : ℕ → List NodeData
  /-- `pma::Track3D::Length()`. -/
  trackLength : ℕ → ℚ
  /-- the `sqrt` of the C library, abstract on rationals. -/
  sqrtQ : ℚ → ℚ
  /-- the `asin` of the C library, abstract on rationals. -/
  asinQ : ℚ → ℚ
  /-- the `acos` of the C library, abstract on rationals. -/
  acosQ : ℚ → ℚ
  /-- `TMath::Pi()`. -/
  piQ : ℚ
  /-- `pma::SolveLeastSquares3D`: weighted 3D line intersection; returns
  the fit residual (negative on numerical failure) and the fitted point. -/
  solve : List (Vec3 × Vec3) → ℚ × Vec3
  /-- `pma::Track3D::GetRoot()`: `none` models a null root pointer. -/
  getRoot : ℕ → Option ℕ
  /-- `pma::Track3D::IsAttachedTo(other)` on root tracks. -/
  isAttachedTo : ℕ → ℕ → Bool
  /-- geometry service: does TPC `tpc` of cryostat `cryo` have the view
  (`0 = U`, `1 = V`, `2 = Z`)? -/
  hasPlane : ℤ → ℤ → Fin 3 → Bool
  /-- `pma::GetProjectionToPlane` for a 3D point, view, TPC, cryostat. -/
  proj2D : Vec3 → Fin 3 → ℤ → ℤ → Vec2
  /-- `pma::Segment3D::GetDistance2To(TVector2, view)` for the segment at
  a given index of a given track. -/
  segDist2To2D : ℕ → ℕ → Vec2 → Fin 3 → ℚ

/-- Node `n` of track `t` (`trk->Nodes()[n]`). -/
def nodeAt (ext : Ext) (t n : ℕ) : NodeData := (ext.nodesOf t).getD n defaultNode

def nodePoint (ext : Ext) (t n : ℕ) : Vec3 := (nodeAt ext t n).point

/-- Length of the segment following node `n` of track `t`
(`trk->NextSegment(trk->Nodes()[n])->Length()`). -/
def segLength (ext : Ext) (t n : ℕ) : ℚ :=
  ext.sqrtQ (dist2 (nodePoint ext t n) (nodePoint ext t (n + 1)))

/-- The mutable state of a `pma::VtxCandidate` object. -/
structure VtxCandidate where
  fAssigned : List (TrkCandidate × ℕ)
  fCenter : Vec3
  fErr : Vec3
  fMse : ℚ
  fMse2D : ℚ
  fSegMinLength : ℚ
  tracksJoined : Bool
deriving DecidableEq

/-- `pma::VtxCandidate::kMaxDistToTrack` (4.0). -/
def kMaxDistToTrack : ℚ := 4

/-- `pma::VtxCandidate::kMinDistToNode` (2.0). -/
def kMinDistToNode : ℚ := 2

/-- `kMaxDistToTrack * kMaxDistToTrack`, the initial `min_mse` of `Add`. -/
def kMax2 : ℚ := kMaxDistToTrack * kMaxDistToTrack

/-- Errors thrown via `cet::exception` in the C++ code. -/
inductive PmaErr where
  | brokenTrack
  | noSegments
deriving DecidableEq

/-- `pma::VtxCandidate::Has(pma::Track3D*)`. -/
def Has (c : VtxCandidate) (t : ℕ) : Bool :=
  c.fAssigned.any fun p => p.1.trk == t

/-- Inner loop of `IsAttached`: scan the assigned tracks, throwing on a
missing root, and test attachment of each root to `rootTrk`. -/
def isAttachedAux (ext : Ext) (rootTrk : ℕ) :
    List (TrkCandidate × ℕ) → Except PmaErr Bool
  | [] => .ok false
  | p :: rest =>
    match ext.getRoot p.1.trk with
    | none => .error .brokenTrack
    | some rootAssn =>
      if ext.isAttachedTo rootTrk rootAssn then .ok true
      else isAttachedAux ext rootTrk rest

/-- `pma::VtxCandidate::IsAttached(pma::Track3D*)`. -/
def IsAttached (ext : Ext) (c : VtxCandidate) (t : ℕ) : Except PmaErr Bool :=
  match ext.getRoot t with
  | none => .error .brokenTrack
  | some rootTrk => isAttachedAux ext rootTrk c.fAssigned

/-- The per-segment weight of `Compute()`:
`fy_norm = asin(|dy| / segLength) / (0.5 π)`, `w = 1 - (fy_norm - 1)^12`,
raised to `0.3` when below it. -/
def computeWeight (ext : Ext) (dy segLen : ℚ) : ℚ :=
  let fy_norm := ext.asinQ (|dy| / segLen) / ((1 / 2) * ext.piQ)
  let w := 1 - (fy_norm - 1) ^ 12
  if w < 3 / 10 then 3 / 10 else w

/-- A segment admitted to the fit by `Compute()`: owning track, segment
index, the two endpoints, and its weight. -/
structure IncludedSeg where
  trk : ℕ
  idx : ℕ
  p1 : Vec3
  p2 : Vec3
  w : ℚ
deriving DecidableEq

/-- The collection loop of `Compute()`: for every assigned
(track, segment-index) pair whose segment length reaches
`fSegMinLength`, record endpoints and weight. -/
def computeIncluded (ext : Ext) (c : VtxCandidate) : List IncludedSeg :=
  c.fAssigned.filterMap fun v =>
    let t := v.1.trk
    let p1 := nodePoint ext t v.2
    let p2 := nodePoint ext t (v.2 + 1)
    let sl := segLength ext t v.2
    if c.fSegMinLength ≤ sl then
      some ⟨t, v.2, p1, p2, computeWeight ext (p1.y - p2.y) sl⟩
    else none

/-- The weight sum `wsum` dividing the X component of the center. -/
def computeWsum (ext : Ext) (c : VtxCandidate) : ℚ :=
  ((computeIncluded ext c).map IncludedSeg.w).sum

/-- `segments.size()`, the divisor of the Y/Z components and of `fErr`. -/
def computeSegCount (ext : Ext) (c : VtxCandidate) : ℕ :=
  (computeIncluded ext c).length

/-- `pma::VtxCandidate::Compute()` as a pure function: returns the fit
residual and the new `fCenter` and `fErr`.  On a negative solver residual
the sentinel `1.0E+6` is returned with center and error left at the
origin (they are reset before the solver call). -/
def compute (ext : Ext) (c : VtxCandidate) : ℚ × Vec3 × Vec3 :=
  let included := computeIncluded ext c
  let lines := included.map fun s => (s.p1, s.p2)
  let sv := ext.solve lines
  if sv.1 < 0 then (1000000, ⟨0, 0, 0⟩, ⟨0, 0, 0⟩)
  else
    let projs := included.map fun s => (s.w, getProjectionToSegment sv.2 s.p1 s.p2)
    let wsum := computeWsum ext c
    let cnt : ℚ := (computeSegCount ext c : ℚ)
    let cx := (projs.map fun p => p.1 * p.2.x).sum / wsum
    let cy := (projs.map fun p => p.2.y).sum / cnt
    let cz := (projs.map fun p => p.2.z).sum / cnt
    let e0 := ext.sqrtQ ((projs.map fun p => p.1 * p.1).sum / cnt)
    let e1 := ext.sqrtQ (cnt / cnt)
    let e2 := ext.sqrtQ (cnt / cnt)
    (sv.1, ⟨cx, cy, cz⟩, ⟨e0, e1, e2⟩)

/-- `Compute()` with its in-place mutation of `fCenter`/`fErr` made
explicit: returns the residual and the updated candidate. -/
def computeUpd (ext : Ext) (c : VtxCandidate) : ℚ × VtxCandidate :=
  let r := compute ext c
  (r.1, { c with fCenter := r.2.1, fErr := r.2.2 })

/-- `pma::VtxCandidate::ComputeMse2D()`. -/
def computeMse2D (ext : Ext) (c : VtxCandidate) : ℚ :=
  let total := (c.fAssigned.map fun t =>
    let nd := nodeAt ext t.1.trk t.2
    let planes := ([0, 1, 2] : List (Fin 3)).filter fun v => ext.hasPlane nd.tpc nd.cryo v
    let m := (planes.map fun v =>
      ext.segDist2To2D t.1.trk t.2 (ext.proj2D c.fCenter v nd.tpc nd.cryo) v).sum
    m / (planes.length : ℚ)).sum
  total / (c.fAssigned.length : ℚ)

/-- `pma::VtxCandidate::Test(other)`. -/
def testCand (ext : Ext) (c other : VtxCandidate) : ℚ :=
  let dx := c.fCenter.x - other.fCenter.x
  let dy := c.fCenter.y - other.fCenter.y
  let dz := c.fCenter.z - other.fCenter.z
  ext.sqrtQ (c.fErr.x * other.fErr.x * dx * dx
    + c.fErr.y * other.fErr.y * dy * dy
    + c.fErr.z * other.fErr.z * dz * dz)

/-- The candidate with the tentative entry `(t, n)` appended
(`fAssigned.emplace_back(...)` followed by `fAssigned.back().second = n`). -/
def withTrial (c : VtxCandidate) (t : TrkCandidate) (n : ℕ) : VtxCandidate :=
  { c with fAssigned := c.fAssigned ++ [(t, n)] }

/-- Fit residual obtained by `Compute()` with the new track tried at
segment index `n` (all other assigned indices held fixed). -/
def candMse (ext : Ext) (c : VtxCandidate) (t : TrkCandidate) (n : ℕ) : ℚ :=
  (compute ext (withTrial c t n)).1

/-- Distance `d = sqrt(seg->GetDistance2To(fCenter))` of the fitted point
to the tried segment `n` of the new track. -/
def candDist (ext : Ext) (c : VtxCandidate) (t : TrkCandidate) (n : ℕ) : ℚ :=
  ext.sqrtQ (segDistance2To (compute ext (withTrial c t n)).2.1
    (nodePoint ext t.trk n) (nodePoint ext t.trk (n + 1)))

/-- Does segment `n` of the new track pass the minimum-length filter of
the `Add` scan (`seg->Length() < fSegMinLength` skips it)? -/
def candQual (ext : Ext) (c : VtxCandidate) (t : TrkCandidate) (n : ℕ) : Bool :=
  !(segLength ext t.trk n < c.fSegMinLength)

/-- The scan of `Add` for candidate size > 2: thread
`(min_mse, n_best, d_best)` over the segment indices of the new track,
computing the fit at each tried index. -/
def addScanGT2 (ext : Ext) (c : VtxCandidate) (t : TrkCandidate) :
    List ℕ → ℚ × ℕ × ℚ → ℚ × ℕ × ℚ
  | [], acc => acc
  | n :: rest, acc =>
    if segLength ext t.trk n < c.fSegMinLength then
      addScanGT2 ext c t rest acc
    else
      let mse := candMse ext c t n
      if mse < acc.1 then
        let d := candDist ext c t n
        if d < acc.2.2 then addScanGT2 ext c t rest (mse, n, d)
        else addScanGT2 ext c t rest acc
      else addScanGT2 ext c t rest acc

/-- The selection rule implemented by the scan of `Add` at size 3 or
more, stated per candidate index: scanning indices in increasing order,
a candidate `n` replaces the running best `(min_mse, n_best, d_best)`
exactly when it passes the length filter, its fit residual is strictly
below the best residual so far, and its fitted-point distance is
strictly below the best distance so far. -/
def greedySelect (ext : Ext) (c : VtxCandidate) (t : TrkCandidate) :
    List ℕ → ℚ × ℕ × ℚ → ℚ × ℕ × ℚ
  | [], acc => acc
  | n :: rest, acc =>
    greedySelect ext c t rest
      (if candQual ext c t n ∧ candMse ext c t n < acc.1 ∧
          candDist ext c t n < acc.2.2
       then (candMse ext c t n, n, candDist ext c t n) else acc)

/-- Inner scan of `Add` for candidate size == 2: segment index `n` of the
new track, with the first track's index fixed at `m`; the accumulator is
`(min_mse, n_best, m_best, d_best, l_best)` paired with the current
value of the member `fErr`, which every `Compute()` call of the scan
overwrites (it is not restored on the failure path). -/
def addScan2Inner (ext : Ext) (c : VtxCandidate) (p0 : TrkCandidate)
    (t : TrkCandidate) (m : ℕ) (lm : ℚ) :
    List ℕ → (ℚ × ℕ × ℕ × ℚ × ℚ) × Vec3 → (ℚ × ℕ × ℕ × ℚ × ℚ) × Vec3
  | [], st => st
  | n :: rest, st =>
    let ln := segLength ext t.trk n
    if ln < c.fSegMinLength then addScan2Inner ext c p0 t m lm rest st
    else
      let trial := { c with fAssigned := [(p0, m), (t, n)] }
      let r := computeUpd ext trial
      let d := ext.sqrtQ (computeMse2D ext r.2)
      if d < st.1.2.2.2.1 then
        let d_dist := (st.1.2.2.2.1 - d) / st.1.2.2.2.1
        if (8 / 10) * d_dist * st.1.2.2.2.2 < lm + ln then
          addScan2Inner ext c p0 t m lm rest ((r.1, n, m, d, lm + ln), r.2.fErr)
        else addScan2Inner ext c p0 t m lm rest (st.1, r.2.fErr)
      else addScan2Inner ext c p0 t m lm rest (st.1, r.2.fErr)

/-- Outer scan of `Add` for candidate size == 2 over the segment index
`m` of the first track; also returns the last `m` written into
`fAssigned.front().second` (that write is not rolled back on failure,
`mCur` starts at the first track's current index). -/
def addScan2Outer (ext : Ext) (c : VtxCandidate) (p0 : TrkCandidate)
    (t : TrkCandidate) (nT : ℕ) :
    List ℕ → ((ℚ × ℕ × ℕ × ℚ × ℚ) × Vec3) × ℕ → ((ℚ × ℕ × ℕ × ℚ × ℚ) × Vec3) × ℕ
  | [], st => st
  | m :: rest, st =>
    let lm := segLength ext p0.trk m
    if lm < c.fSegMinLength then addScan2Outer ext c p0 t nT rest st
    else
      addScan2Outer ext c p0 t nT rest
        (addScan2Inner ext c p0 t m lm (List.range (nT - 1)) st.1, m)

/-- The `fMse = Compute(); fMse2D = ComputeMse2D();` sequence: run
`Compute()` (storing `fMse`, `fCenter`, `fErr`), then `ComputeMse2D()`
(storing `fMse2D`). -/
def commitFit (ext : Ext) (c : VtxCandidate) : VtxCandidate :=
  let r := computeUpd ext c
  let c2 := { r.2 with fMse := r.1 }
  { c2 with fMse2D := computeMse2D ext c2 }

/-- State produced by a successful `Add` commit or an `Add` rollback:
assign the final indices, then refit. -/
def recalcOn (ext : Ext) (c : VtxCandidate) (assigned : List (TrkCandidate × ℕ)) :
    VtxCandidate :=
  commitFit ext { c with fAssigned := assigned }

/-- The derived state of the candidate coincides with what a fresh
recomputation from its assigned set produces (`Compute()` and
`ComputeMse2D()` fixpoint). -/
def Recalced (ext : Ext) (s : VtxCandidate) : Prop :=
  s.fCenter = (compute ext s).2.1 ∧ s.fErr = (compute ext s).2.2 ∧
  s.fMse = (compute ext s).1 ∧ s.fMse2D = computeMse2D ext s

/-- `pma::VtxCandidate::Add(const pma::TrkCandidate&)`. -/
def add (ext : Ext) (c : VtxCandidate) (t : TrkCandidate) :
    Except PmaErr (Bool × VtxCandidate) := do
  let att ← IsAttached ext c t.trk
  if att then return (false, c)
  let nNodes := (ext.nodesOf t.trk).length
  if 2 < c.fAssigned.length + 1 then
    let scan := addScanGT2 ext c t (List.range (nNodes - 1)) (kMax2, 0, kMaxDistToTrack)
    if scan.2.2 < kMaxDistToTrack then
      return (true, recalcOn ext c (c.fAssigned ++ [(t, scan.2.1)]))
    else
      return (false, recalcOn ext c c.fAssigned)
  else if c.fAssigned.length + 1 = 2 then
    let p0 := (c.fAssigned.headD (⟨0, 0⟩, 0))
    let nP0 := (ext.nodesOf p0.1.trk).length
    let scan := addScan2Outer ext c p0.1 t nNodes (List.range (nP0 - 1))
      (((kMax2, 0, 0, kMaxDistToTrack, 0), c.fErr), p0.2)
    if scan.1.1.2.2.2.1 < kMaxDistToTrack then
      return (true, recalcOn ext c [(p0.1, scan.1.1.2.2.1), (t, scan.1.1.2.1)])
    else
      return (false, { c with
                       fAssigned := [(p0.1, scan.2)],
                       fCenter := ⟨0, 0, 0⟩, fErr := scan.1.2,
                       fMse := 0, fMse2D := 0 })
  else
    if (List.range (nNodes - 1)).any
        (fun n => c.fSegMinLength ≤ segLength ext t.trk n) then
      return (true, withTrial c t 0)
    else
      return (false, { c with fCenter := ⟨0, 0, 0⟩, fMse := 0, fMse2D := 0 })

/-- The track-collection loop of `MergeWith`: returns `false` on an early
`already attached` exit (keeping the entries pushed so far!), otherwise
`true` with the grown candidate and the number of pushed tracks. -/
def mergeLoop (ext : Ext) :
    List (TrkCandidate × ℕ) → VtxCandidate → ℕ →
      Except PmaErr (Bool × VtxCandidate × ℕ)
  | [], c, ntrk => .ok (true, c, ntrk)
  | p :: rest, c, ntrk => do
    let att ← IsAttached ext c p.1.trk
    if att then .ok (false, c, ntrk)
    else if Has c p.1.trk then mergeLoop ext rest c ntrk
    else mergeLoop ext rest { c with fAssigned := c.fAssigned ++ [p] } (ntrk + 1)

/-- `pma::VtxCandidate::MergeWith(const pma::VtxCandidate&)`; `other` is
taken by constant reference and never written. -/
def mergeWith (ext : Ext) (c other : VtxCandidate) :
    Except PmaErr (Bool × VtxCandidate) := do
  let d := ext.sqrtQ (dist2 c.fCenter other.fCenter)
  if 10 < d then return (false, c)
  let _dw := testCand ext c other
  let lr ← mergeLoop ext other.fAssigned c 0
  if !lr.1 then return (false, lr.2.1)
  if lr.2.2 ≠ 0 then
    let r := computeUpd ext lr.2.1
    if r.1 < 1 then
      return (true, commitFit ext lr.2.1)
    else
      let restored := lr.2.1.fAssigned.take (lr.2.1.fAssigned.length - lr.2.2)
      return (false, recalcOn ext lr.2.1 restored)
  else
    return (false, lr.2.1)

/-- The loop bound `fAssigned.size() - 1` of `MaxAngle`, evaluated in
`size_t` arithmetic: on an empty assigned set it wraps to `2^64 - 1`. -/
def size_sub1 (n : ℕ) : ℕ := (n + (2 ^ 64 - 1)) % 2 ^ 64

/-- In-bounds condition for the reference-selection loop of `MaxAngle`:
every index it visits must be a valid index into `fAssigned`. -/
def maxAngleRefIndicesOK (c : VtxCandidate) : Prop :=
  ∀ i ∈ List.range (size_sub1 c.fAssigned.length), i < c.fAssigned.length

/-- Direction normalization `dir *= 1.0 / dir.Mag()`. -/
def normalize (ext : Ext) (v : Vec3) : Vec3 := smul (1 / ext.sqrtQ (dot v v)) v

/-- Local direction at the vertex of assigned entry `p`: the vector from
node `p.2` to node `p.2 + 1` of its track, normalized. -/
def entryDir (ext : Ext) (p : TrkCandidate × ℕ) : Vec3 :=
  normalize ext (vsub (nodePoint ext p.1.trk (p.2 + 1)) (nodePoint ext p.1.trk p.2))

/-- First loop of `MaxAngle`: find the running maximum of track lengths
(strict improvements only, starting from 0), recording index and local
direction; the accumulator is `(max_l, max_l_idx, dir_i)`. -/
def maxAngleRefScan (ext : Ext) (c : VtxCandidate) :
    List ℕ → ℚ × ℕ × Vec3 → ℚ × ℕ × Vec3
  | [], acc => acc
  | i :: rest, acc =>
    let p := c.fAssigned.getD i (⟨0, 0⟩, 0)
    let l := ext.trackLength p.1.trk
    if acc.1 < l then maxAngleRefScan ext c rest (l, i, entryDir ext p)
    else maxAngleRefScan ext c rest acc

/-- Second loop of `MaxAngle`: minimum of `fabs(dir_i * dir_j)` over the
other assigned tracks longer than `minLength`, starting from 1.0. -/
def maxAngleMinScan (ext : Ext) (c : VtxCandidate) (minLength : ℚ)
    (maxIdx : ℕ) (dirI : Vec3) : List ℕ → ℚ → ℚ
  | [], mn => mn
  | j :: rest, mn =>
    let p := c.fAssigned.getD j (⟨0, 0⟩, 0)
    if j ≠ maxIdx ∧ minLength < ext.trackLength p.1.trk then
      let a := |dot dirI (entryDir ext p)|
      if a < mn then maxAngleMinScan ext c minLength maxIdx dirI rest a
      else maxAngleMinScan ext c minLength maxIdx dirI rest mn
    else maxAngleMinScan ext c minLength maxIdx dirI rest mn

/-- `pma::VtxCandidate::MaxAngle(double)`.  The first loop runs over
`List.range (size_sub1 ...)` because its C++ bound `fAssigned.size() - 1`
is computed in `size_t` arithmetic. -/
def maxAngle (ext : Ext) (c : VtxCandidate) (minLength : ℚ) : ℚ :=
  let refr := maxAngleRefScan ext c
    (List.range (size_sub1 c.fAssigned.length)) (0, 0, ⟨0, 0, 0⟩)
  let mn := maxAngleMinScan ext c minLength refr.2.1 refr.2.2
    (List.range c.fAssigned.length) 1
  180 * ext.acosQ mn / ext.piQ

/-- Modelled from the spec, for claim C4 (the code under test is
`MaxAngle`): among tracks longer than `minLength`, take the direction of
the longest as reference and return the largest angle (degrees, 0-180)
between it and any other qualifying track's local direction at the
vertex; the largest angle corresponds to the smallest signed cosine. -/
def maxAngleSpec (ext : Ext) (c : VtxCandidate) (minLength : ℚ) : ℚ :=
  let qual := (List.range c.fAssigned.length).filter fun i =>
    minLength < ext.trackLength ((c.fAssigned.getD i (⟨0, 0⟩, 0)).1.trk)
  let refIdx := qual.foldl (fun acc i =>
    if ext.trackLength ((c.fAssigned.getD acc (⟨0, 0⟩, 0)).1.trk) <
       ext.trackLength ((c.fAssigned.getD i (⟨0, 0⟩, 0)).1.trk) then i else acc)
    (qual.headD 0)
  let dirRef := entryDir ext (c.fAssigned.getD refIdx (⟨0, 0⟩, 0))
  let mn := (qual.filter (· ≠ refIdx)).foldl (fun mn j =>
    let a := dot dirRef (entryDir ext (c.fAssigned.getD j (⟨0, 0⟩, 0)))
    if a < mn then a else mn) 1
  180 * ext.acosQ mn / ext.piQ

/-- External graph collaborators used by `JoinTracks`, over an abstract
graph state `G` (the operations on `pma::Track3D` / `pma::Node3D` /
`pma::Segment3D` live outside this translation unit).  Nodes, segments
and new tracks are referenced by numeric identity. -/
structure JExt (G : Type) where
  /-- `trk->Nodes()` as node identities. -/
  nodesOfG : G → ℕ → List ℕ
  /-- `node->Point3D()`. -/
  pointOf : G → ℕ → Vec3
  /-- `node->TPC()`. -/
  tpcOf : G → ℕ → ℤ
  /-- `node->Cryo()`. -/
  cryoOf : G → ℕ → ℤ
  /-- `node->SetPoint3D(p)`. -/
  setPoint : G → ℕ → Vec3 → G
  /-- `trk->CanFlip()`. -/
  canFlip : G → ℕ → Bool
  /-- `trk->Flip()`. -/
  flipTrk : G → ℕ → G
  /-- `trk->AttachTo(node)`: success flag and new graph. -/
  attachTo : G → ℕ → ℕ → Bool × G
  /-- `trk->AttachTo(node, true)` (reversed attach). -/
  attachToRev : G → ℕ → ℕ → Bool × G
  /-- `trk->AttachBackTo(node)`. -/
  attachBackTo : G → ℕ → ℕ → Bool × G
  /-- `trk->Split(idx)`: identity of the split-off track, if any. -/
  splitTrk : G → ℕ → ℕ → Option ℕ × G
  /-- `trk->InsertNode(p, idx, tpc, cryo)`. -/
  insertNode : G → ℕ → Vec3 → ℕ → ℤ → ℤ → G
  /-- `trk->MakeProjection()`. -/
  makeProj : G → ℕ → G
  /-- `node->Prev()` as a segment identity. -/
  nodePrev : G → ℕ → Option ℕ
  /-- `node->NextCount()`. -/
  nodeNextCount : G → ℕ → ℕ
  /-- `node->Next(0)` as a segment identity. -/
  nodeNext0 : G → ℕ → ℕ
  /-- `seg->Parent()` as a track identity. -/
  segParent : G → ℕ → ℕ
  /-- `trk->NextSegment(node)`. -/
  nextSegOfNode : G → ℕ → ℕ → Option ℕ
  /-- `node->GetBranches()` as track identities. -/
  nodeBranches : G → ℕ → List ℕ
  /-- `trk->GetBranches(vec)`: the no-loops flag and the collected
  branch tracks of the subtree. -/
  trkBranches : G → ℕ → Bool × List ℕ
  /-- `trk->TuneFullTree()`. -/
  tuneFullTree : G → ℕ → ℚ × G
  /-- `trk->GetRoot()`. -/
  rootOf : G → ℕ → Option ℕ

/-- Mutable state threaded through the attachment loop of `JoinTracks`. -/
structure JoinState (G : Type) where
  g : G
  tracks : List TrkCandidate
  vtxCenter : Option ℕ
  hasInnerCenter : Bool
  nOK : ℕ

/-- Remove the first element of the list whose track identity is
`trkId`, returning it (if present) and the remaining list. -/
def extractFirst (trkId : ℕ) : List TrkCandidate →
    Option TrkCandidate × List TrkCandidate
  | [] => (none, [])
  | s :: rest =>
    if s.trk = trkId then (some s, rest)
    else
      let r := extractFirst trkId rest
      (r.1, s :: r.2)

/-- Step 1 of `JoinTracks`: move every assigned track from `src` to
`tracks` by identity match (first match only). -/
def moveFromSrc : List (TrkCandidate × ℕ) → List TrkCandidate →
    List TrkCandidate → List TrkCandidate × List TrkCandidate
  | [], tracks, src => (tracks, src)
  | c :: rest, tracks, src =>
    match extractFirst c.1.trk src with
    | (some s, src2) => moveFromSrc rest (tracks ++ [s]) src2
    | (none, _) => moveFromSrc rest tracks src

/-- The branch-removal loop of the failure paths of `JoinTracks`: for
each branch, erase the first matching entry of `tracks` (the matched
track object is also deleted there; deallocation is not modelled). -/
def removeBranches (brs : List ℕ) (tracks : List TrkCandidate) :
    List TrkCandidate :=
  brs.foldl (fun ts b => (extractFirst b ts).2) tracks

/-- The split/insert index adjustment shared by both inner branches of
the third case of the attachment loop: insert a brand-new node at
`idx + 1` when the center projects clearly inside the segment, else move
to the nearer endpoint; returns the updated index and graph. -/
def joinAdjustIdx {G : Type} (jx : JExt G) (g : G) (trk : ℕ) (fCenter : Vec3)
    (idx : ℕ) (f ds d0 d1 : ℚ) (tpc0 cryo0 tpc1 cryo1 : ℤ) : ℕ × G :=
  if 0 ≤ f ∧ f ≤ 1 ∧ kMinDistToNode < f * ds ∧ kMinDistToNode < (1 - f) * ds then
    if f < 1 / 2 then (idx + 1, jx.insertNode g trk fCenter (idx + 1) tpc0 cryo0)
    else (idx + 1, jx.insertNode g trk fCenter (idx + 1) tpc1 cryo1)
  else if d1 < d0 then (idx + 1, g)
  else (idx, g)

/-- Body of the attachment loop of `JoinTracks` for assigned entry `e`
at position `i`. -/
def joinStep {G : Type} (jx : JExt G) (ext : Ext) (fCenter : Vec3) (i : ℕ)
    (e : TrkCandidate × ℕ) (st : JoinState G) : JoinState G :=
  let trk := e.1.trk
  let key := e.1.key
  let idx := e.2
  let nodes := jx.nodesOfG st.g trk
  let nd0 := nodes.getD idx 0
  let nd1 := nodes.getD (idx + 1) 0
  let p0 := jx.pointOf st.g nd0
  let p1 := jx.pointOf st.g nd1
  let tpc0 := jx.tpcOf st.g nd0
  let tpc1 := jx.tpcOf st.g nd1
  let cryo0 := jx.cryoOf st.g nd0
  let cryo1 := jx.cryoOf st.g nd1
  let d0 := ext.sqrtQ (dist2 p0 fCenter)
  let d1 := ext.sqrtQ (dist2 p1 fCenter)
  let ds := ext.sqrtQ (dist2 p0 p1)
  let f := getSegmentProjVector fCenter p0 p1
  if idx = 0 ∧ f * ds ≤ kMinDistToNode then
    if i = 0 then
      let vc := nodes.headD 0
      { st with g := jx.setPoint st.g vc fCenter, vtxCenter := some vc,
                nOK := st.nOK + 1 }
    else
      let vc := st.vtxCenter.getD 0
      let ag := jx.attachTo st.g trk vc
      { st with g := ag.2, nOK := st.nOK + (if ag.1 then 1 else 0) }
  else if idx + 2 = nodes.length ∧ (1 - f) * ds ≤ kMinDistToNode then
    if i = 0 then
      if jx.canFlip st.g trk then
        let g1 := jx.flipTrk st.g trk
        let vc := (jx.nodesOfG g1 trk).headD 0
        { st with g := jx.setPoint g1 vc fCenter, vtxCenter := some vc,
                  nOK := st.nOK + 1 }
      else
        let vc := nodes.getLastD 0
        { st with g := jx.setPoint st.g vc fCenter, vtxCenter := some vc,
                  nOK := st.nOK + 1 }
    else
      let vc := st.vtxCenter.getD 0
      if (jx.nodePrev st.g vc).isSome ∧ jx.canFlip st.g trk then
        let g1 := jx.flipTrk st.g trk
        let ag := jx.attachTo g1 trk vc
        { st with g := ag.2, nOK := st.nOK + (if ag.1 then 1 else 0) }
      else
        let ag := jx.attachBackTo st.g trk vc
        { st with g := ag.2, nOK := st.nOK + (if ag.1 then 1 else 0) }
  else
    let canFlipPrev :=
      match st.vtxCenter with
      | none => true
      | some vc =>
        match jx.nodePrev st.g vc with
        | none => true
        | some seg =>
          let par := jx.segParent st.g seg
          if (jx.nextSegOfNode st.g par vc).isSome then false
          else jx.canFlip st.g par
    if st.hasInnerCenter ∨ canFlipPrev = false then
      let ig := joinAdjustIdx jx st.g trk fCenter idx f ds d0 d1 tpc0 cryo0 tpc1 cryo1
      let sp := jx.splitTrk ig.2 trk ig.1
      match sp.1 with
      | none => { st with g := sp.2 }
      | some t0 =>
        let g3 := jx.makeProj (jx.makeProj sp.2 trk) t0
        let tracks2 := st.tracks ++ [⟨t0, key⟩]
        if i = 0 then
          let vc := (jx.nodesOfG g3 trk).headD 0
          { st with g := g3, tracks := tracks2, vtxCenter := some vc,
                    nOK := st.nOK + 2 }
        else
          let vc := st.vtxCenter.getD 0
          let ag := jx.attachTo g3 trk vc
          { st with g := ag.2, tracks := tracks2,
                    nOK := st.nOK + (if ag.1 then 2 else 0) }
    else
      let ig := joinAdjustIdx jx st.g trk fCenter idx f ds d0 d1 tpc0 cryo0 tpc1 cryo1
      let innerCenter := (jx.nodesOfG ig.2 trk).getD ig.1 0
      if 0 < i then
        let vc := st.vtxCenter.getD 0
        let g3 :=
          match jx.nodePrev ig.2 vc with
          | some seg => jx.flipTrk ig.2 (jx.segParent ig.2 seg)
          | none => ig.2
        let branches := jx.nodeBranches g3 vc
        let g4 := branches.foldl (fun gg b => (jx.attachToRev gg b innerCenter).2) g3
        { st with g := g4, vtxCenter := some innerCenter,
                  hasInnerCenter := true, nOK := st.nOK + 1 }
      else
        { st with g := ig.2, vtxCenter := some innerCenter,
                  hasInnerCenter := true, nOK := st.nOK + 1 }

/-- The attachment loop of `JoinTracks` over the indexed assigned set. -/
def joinLoop {G : Type} (jx : JExt G) (ext : Ext) (fCenter : Vec3) :
    List (ℕ × (TrkCandidate × ℕ)) → JoinState G → JoinState G
  | [], st => st
  | (i, e) :: rest, st => joinLoop jx ext fCenter rest (joinStep jx ext fCenter i e st)

/-- Root segment of the final vertex node: the first outgoing segment,
else the incoming one, else the structural-corruption error
(`Vertex with no segments attached`). -/
def rootSegOf {G : Type} (jx : JExt G) (g : G) (v : ℕ) : Except PmaErr ℕ :=
  if jx.nodeNextCount g v ≠ 0 then .ok (jx.nodeNext0 g v)
  else
    match jx.nodePrev g v with
    | some s => .ok s
    | none => .error .noSegments

/-- Root track of the finalize step: parent of the root segment,
resolved through `GetRoot()` with the parent itself as fallback. -/
def joinRootTrk {G : Type} (jx : JExt G) (g : G) (rs : ℕ) : ℕ :=
  let parent := jx.segParent g rs
  (jx.rootOf g parent).getD parent

/-- Finalize step of `JoinTracks`: loop check, commit with
`TuneFullTree`, and the branch-removal failure handling. -/
def joinFinalize {G : Type} (jx : JExt G) (c : VtxCandidate) (st : JoinState G)
    (src : List TrkCandidate) :
    Except PmaErr (Bool × VtxCandidate × G × List TrkCandidate × List TrkCandidate) :=
  match st.vtxCenter with
  | none => .ok (false, c, st.g, st.tracks, src)
  | some v =>
    match rootSegOf jx st.g v with
    | .error e => .error e
    | .ok rs =>
      let rootTrk := joinRootTrk jx st.g rs
      let nb := jx.trkBranches st.g rootTrk
      if nb.1 ∧ 1 < st.nOK then
        let c2 := { c with fAssigned := [], fCenter := jx.pointOf st.g v,
                           fMse := 0, fMse2D := 0 }
        let tg := jx.tuneFullTree st.g rootTrk
        if -2 < tg.1 then .ok (true, c2, tg.2, st.tracks, src)
        else .ok (false, c2, tg.2, removeBranches nb.2 st.tracks, src)
      else if nb.1 then .ok (false, c, st.g, st.tracks, src)
      else .ok (false, c, st.g, removeBranches nb.2 st.tracks, src)

/-- `pma::VtxCandidate::JoinTracks(tracks, src)`. -/
def joinTracks {G : Type} (jx : JExt G) (ext : Ext) (c : VtxCandidate) (g : G)
    (tracks src : List TrkCandidate) :
    Except PmaErr (Bool × VtxCandidate × G × List TrkCandidate × List TrkCandidate) :=
  if c.tracksJoined then .ok (false, c, g, tracks, src)
  else
    let c0 := { c with tracksJoined := true }
    let ms := moveFromSrc c0.fAssigned tracks src
    let st := joinLoop jx ext c0.fCenter c0.fAssigned.enum
      ⟨g, ms.1, none, false, 0⟩
    joinFinalize jx c0 st ms.2

/-- The state of the attachment loop of `JoinTracks` after step 2 (step 1
has moved the assigned tracks from `src` into `tracks`). -/
def joinLoopState {G : Type} (jx : JExt G) (ext : Ext) (c : VtxCandidate) (g : G)
    (tracks src : List TrkCandidate) : JoinState G :=
  joinLoop jx ext c.fCenter c.fAssigned.enum
    ⟨g, (moveFromSrc c.fAssigned tracks src).1, none, false, 0⟩

/-! Concrete environments used by witnesses and counterexamples. -/

/-- A trivial external environment, the base of the concrete instances. -/
def ext0 : Ext where
  nodesOf := fun _ => []
  trackLength := fun _ => 0
  sqrtQ := fun _ => 0
  asinQ := fun _ => 0
  acosQ := fun _ => 0
  piQ := 3
  solve := fun _ => (-1, ⟨0, 0, 0⟩)
  getRoot := fun t => some t
  isAttachedTo := fun _ _ => false
  hasPlane := fun _ _ _ => false
  proj2D := fun _ _ _ _ => ⟨0, 0⟩
  segDist2To2D := fun _ _ _ _ => 0

/-- Environment with one straight two-node track (identity 1) of length 5
along the x axis; `sqrtQ` agrees with the real square root at the probed
value 25. -/
def extW : Ext :=
  { ext0 with
    nodesOf := fun t => if t = 1 then [⟨⟨0, 0, 0⟩, 0, 0⟩, ⟨⟨5, 0, 0⟩, 0, 0⟩] else []
    sqrtQ := fun q => if q = 25 then 5 else 0 }

/-- Candidate with the single assigned entry (track 1, segment 0) and
minimum segment length 1. -/
def cW : VtxCandidate :=
  ⟨[(⟨1, 0⟩, 0)], ⟨0, 0, 0⟩, ⟨0, 0, 0⟩, 0, 0, 1, false⟩

/-- The segment that `Compute()` admits for `extW`/`cW`. -/
def wSeg : IncludedSeg := ⟨1, 0, ⟨0, 0, 0⟩, ⟨5, 0, 0⟩, 3 / 10⟩

/-- A freshly constructed empty candidate. -/
def cEmpty : VtxCandidate := ⟨[], ⟨0, 0, 0⟩, ⟨0, 0, 0⟩, 0, 0, 1, false⟩

/-- Graph environment with all operations trivial. -/
def jx0 : JExt Unit where
  nodesOfG := fun _ _ => []
  pointOf := fun _ _ => ⟨0, 0, 0⟩
  tpcOf := fun _ _ => 0
  cryoOf := fun _ _ => 0
  setPoint := fun g _ _ => g
  canFlip := fun _ _ => false
  flipTrk := fun g _ => g
  attachTo := fun g _ _ => (false, g)
  attachToRev := fun g _ _ => (false, g)
  attachBackTo := fun g _ _ => (false, g)
  splitTrk := fun g _ _ => (none, g)
  insertNode := fun g _ _ _ _ _ => g
  makeProj := fun g _ => g
  nodePrev := fun _ _ => none
  nodeNextCount := fun _ _ => 0
  nodeNext0 := fun _ _ => 0
  segParent := fun _ _ => 0
  nextSegOfNode := fun _ _ _ => none
  nodeBranches := fun _ _ => []
  trkBranches := fun _ _ => (true, [])
  tuneFullTree := fun g _ => (0, g)
  rootOf := fun _ t => some t

/-- An already committed candidate. -/
def cJoined : VtxCandidate := { cEmpty with tracksJoined := true }

/-- Environment for the C1 failing input: three mutually distinct tracks
1, 2, 3, each its own root, where track 3 is graph-attached to track 1. -/
def extC1 : Ext :=
  { ext0 with isAttachedTo := fun a b => a = 3 ∧ b = 1 }

/-- Candidate holding track 1. -/
def sC1 : VtxCandidate := ⟨[(⟨1, 0⟩, 0)], ⟨0, 0, 0⟩, ⟨0, 0, 0⟩, 0, 0, 1, false⟩

/-- Other candidate holding tracks 2 and 3 (at the same center). -/
def oC1 : VtxCandidate :=
  ⟨[(⟨2, 0⟩, 0), (⟨3, 0⟩, 0)], ⟨0, 0, 0⟩, ⟨0, 0, 0⟩, 0, 0, 1, false⟩

/-- Environment for C3: tracks 1 and 2 are horizontal segments at
heights y = 4 and y = 6 in the z = 10 plane; track 3 runs along z at
x = 0, y = 5, with two candidate segments.  The solver returns residual
1 with point (9/2, 0, 10) when segment 0 of track 3 participates and
residual 2 with point (3/2, 0, 10) when segment 1 does.  `sqrtQ` agrees
with the real square root at every probed value (100, 9, 1, 0). -/
def extC3 : Ext :=
  { ext0 with
    nodesOf := fun t =>
      if t = 1 then [⟨⟨0, 4, 10⟩, 0, 0⟩, ⟨⟨10, 4, 10⟩, 0, 0⟩]
      else if t = 2 then [⟨⟨0, 6, 10⟩, 0, 0⟩, ⟨⟨10, 6, 10⟩, 0, 0⟩]
      else if t = 3 then [⟨⟨0, 5, 0⟩, 0, 0⟩, ⟨⟨0, 5, 10⟩, 0, 0⟩, ⟨⟨0, 5, 20⟩, 0, 0⟩]
      else []
    sqrtQ := fun q => if q = 100 then 10 else if q = 9 then 3 else if q = 1 then 1 else 0
    solve := fun l =>
      if l = [(⟨0, 4, 10⟩, ⟨10, 4, 10⟩), (⟨0, 6, 10⟩, ⟨10, 6, 10⟩), (⟨0, 5, 0⟩, ⟨0, 5, 10⟩)]
      then (1, ⟨9 / 2, 0, 10⟩)
      else if l = [(⟨0, 4, 10⟩, ⟨10, 4, 10⟩), (⟨0, 6, 10⟩, ⟨10, 6, 10⟩), (⟨0, 5, 10⟩, ⟨0, 5, 20⟩)]
      then (2, ⟨3 / 2, 0, 10⟩)
      else (-1, ⟨0, 0, 0⟩) }

/-- Candidate already holding tracks 1 and 2 at segment index 0. -/
def sC3 : VtxCandidate :=
  ⟨[(⟨1, 0⟩, 0), (⟨2, 0⟩, 0)], ⟨0, 0, 0⟩, ⟨0, 0, 0⟩, 0, 0, 1, false⟩

/-- The new (third) track. -/
def tC3 : TrkCandidate := ⟨3, 0⟩

/-- Environment for C4: track 1 (length 5) points along +x, track 2
(length 7) along -x; `acosQ` agrees with the real arc cosine at the
probed values 1 and -1 (with `piQ` as the model of pi). -/
def extC4 : Ext :=
  { ext0 with
    nodesOf := fun t =>
      if t = 1 then [⟨⟨0, 0, 0⟩, 0, 0⟩, ⟨⟨1, 0, 0⟩, 0, 0⟩]
      else if t = 2 then [⟨⟨0, 0, 0⟩, 0, 0⟩, ⟨⟨-1, 0, 0⟩, 0, 0⟩]
      else []
    trackLength := fun t => if t = 1 then 5 else if t = 2 then 7 else 0
    sqrtQ := fun q => if q = 1 then 1 else 0
    acosQ := fun q => if q = 1 then 0 else if q = -1 then 3 else 1
    piQ := 3 }

/-- Candidate holding tracks 1 and 2. -/
def sC4 : VtxCandidate :=
  ⟨[(⟨1, 0⟩, 0), (⟨2, 0⟩, 0)], ⟨0, 0, 0⟩, ⟨0, 0, 0⟩, 0, 0, 1, false⟩

/-- Graph environment for the C2 counterexample: a single two-node track
(identity 1, nodes 10 and 11 at x = 0 and x = 5, first segment 100),
its own root, loop-free with branch list `[1]`. -/
def jxC2 : JExt Unit :=
  { jx0 with
    nodesOfG := fun _ t => if t = 1 then [10, 11] else []
    pointOf := fun _ nd => if nd = 11 then ⟨5, 0, 0⟩ else ⟨0, 0, 0⟩
    nodeNextCount := fun _ nd => if nd = 10 then 1 else 0
    nodeNext0 := fun _ _ => 100
    segParent := fun _ _ => 1
    trkBranches := fun _ t => (true, if t = 1 then [1] else []) }

/-- External environment for C2 (`sqrtQ` agrees with the real square
root at the probed values 0 and 25). -/
def extC2 : Ext := { ext0 with sqrtQ := fun q => if q = 25 then 5 else 0 }

/-- Candidate for C2: one assigned track with the fitted center on the
track's first node. -/
def cC2 : VtxCandidate := ⟨[(⟨1, 5⟩, 0)], ⟨0, 0, 0⟩, ⟨0, 0, 0⟩, 0, 0, 1, false⟩

/-- Environment for C5: the track of `extW` plus a solver that returns
residual 5 with point (1, 1, 1) on every input. -/
def extC5 : Ext := { extW with solve := fun _ => (5, ⟨1, 1, 1⟩) }

/-- Track 1 as a candidate. -/
def tOne : TrkCandidate := ⟨1, 0⟩

/-- Environment for C9: a solver returning residual 0 with the origin on
every input - in particular a nonnegative residual on the empty line
set, so `Compute()` proceeds past the failure branch and reaches its
divisions. -/
def extC9 : Ext := { ext0 with solve := fun _ => (0, ⟨0, 0, 0⟩) }

/-! Claim C7: the weight floor of `Compute()`. -/

/-- The weight formula of `Compute()` never yields less than 0.3, for any
inputs at all (in particular for all endpoint separations `dy` and
segment lengths at least `|dy|`). -/
theorem computeWeight_floor (ext : Ext) (dy sl : ℚ) :
    3 / 10 ≤ computeWeight ext dy sl := by
  unfold computeWeight
  dsimp only
  split_ifs with h
  · exact le_refl _
  · exact le_of_not_lt h

/-- C7: every segment admitted to the fit by `Compute()` has its weight
computed by `w = 1 - (fy_norm - 1)^12` with
`fy_norm = asin(|dy| / segLength) / (pi/2)` (see `computeIncluded`), and
that weight is never below 0.3. -/
theorem c7_weight_floor (ext : Ext) (c : VtxCandidate) :
    ∀ s ∈ computeIncluded ext c, 3 / 10 ≤ s.w := by
  intro s hs
  unfold computeIncluded at hs
  rw [List.mem_filterMap] at hs
  obtain ⟨v, _, hv⟩ := hs
  dsimp only at hv
  split_ifs at hv
  cases hv
  exact computeWeight_floor ext _ _

/-- Witness for C7 at a concrete included segment. -/
theorem c7_weight_floor_witness :
    wSeg ∈ computeIncluded extW cW ∧ 3 / 10 ≤ wSeg.w := by
  have h : computeIncluded extW cW = [wSeg] := by with_unfolding_all rfl
  refine ⟨?_, c7_weight_floor extW cW wSeg ?_⟩ <;>
    · rw [h]
      exact List.mem_singleton.mpr rfl

/-! Claim C8: idempotence of `Compute()`. -/

/-- `Compute()` reads only the assigned set and the minimum segment
length of the candidate state. -/
theorem compute_congr (ext : Ext) (c1 c2 : VtxCandidate)
    (h1 : c1.fAssigned = c2.fAssigned) (h2 : c1.fSegMinLength = c2.fSegMinLength) :
    compute ext c1 = compute ext c2 := by
  have hinc : computeIncluded ext c1 = computeIncluded ext c2 := by
    unfold computeIncluded
    simp only [h1, h2]
  unfold compute computeWsum computeSegCount
  simp only [hinc]

/-- C8: `Compute()` is idempotent; a second call with no intervening
mutation returns the same residual and recomputes identical `fCenter`
and `fErr`. -/
theorem c8_compute_idempotent (ext : Ext) (c : VtxCandidate) :
    (computeUpd ext (computeUpd ext c).2).1 = (computeUpd ext c).1 ∧
    (computeUpd ext (computeUpd ext c).2).2.fCenter = (computeUpd ext c).2.fCenter ∧
    (computeUpd ext (computeUpd ext c).2).2.fErr = (computeUpd ext c).2.fErr := by
  have h : compute ext (computeUpd ext c).2 = compute ext c :=
    compute_congr ext _ _ rfl rfl
  refine ⟨?_, ?_, ?_⟩
  · show (compute ext (computeUpd ext c).2).1 = (compute ext c).1
    rw [h]
  · show (compute ext (computeUpd ext c).2).2.1 = (compute ext c).2.1
    rw [h]
  · show (compute ext (computeUpd ext c).2).2.2 = (compute ext c).2.2
    rw [h]

/-! Claim C9: `Compute()` with no admissible segment. -/

/-- When the assigned set is empty, or no assigned pair has a segment of
length at least the minimum-segment-length threshold, the fit includes
no segment at all, so the weight sum `wsum` and the segment count that
divide the center and error components are both 0. -/
theorem compute_no_admissible_segments (ext : Ext) (c : VtxCandidate)
    (h : c.fAssigned = [] ∨
      ∀ p ∈ c.fAssigned, segLength ext p.1.trk p.2 < c.fSegMinLength) :
    computeIncluded ext c = [] ∧ computeWsum ext c = 0 ∧ computeSegCount ext c = 0 := by
  have hinc : computeIncluded ext c = [] := by
    rcases h with h | h
    · unfold computeIncluded
      rw [h]
      rfl
    · unfold computeIncluded
      rw [List.filterMap_eq_nil_iff]
      intro p hp
      dsimp only
      rw [if_neg (not_le.mpr (h p hp))]
  refine ⟨hinc, ?_, ?_⟩
  · unfold computeWsum
    rw [hinc]
    rfl
  · unfold computeSegCount
    rw [hinc]
    rfl

/-- C9 counterexample: with an empty assigned set and a solver that
follows the failure contract on the empty line set (negative residual,
as `ext0` does), `Compute()` returns the 1.0E+6 sentinel with the center
and error left at the finite origin - no division by zero is reached, so
the claim's unconditional division-by-zero/non-finite behavior is false
at this input. -/
theorem c9_empty_fit_sentinel :
    cEmpty.fAssigned = [] ∧ (ext0.solve []).1 < 0 ∧
    computeIncluded ext0 cEmpty = [] ∧
    compute ext0 cEmpty = (1000000, ⟨0, 0, 0⟩, ⟨0, 0, 0⟩) := by
  refine ⟨rfl, ?_, by with_unfolding_all rfl, by with_unfolding_all rfl⟩
  have h : (ext0.solve []).1 = -1 := by with_unfolding_all rfl
  rw [h]
  norm_num

/-- C9 (amended): with no admissible segment the fit's line set is empty
and both divisors (`wsum` and the segment count) are 0; the external
solver's residual on the empty set then decides `Compute()`: a negative
residual takes the failure branch, returning the 1.0E+6 sentinel with
center and error left at the origin, never reaching the divisions; a
nonnegative residual makes `Compute()` return exactly the center and
error components obtained by dividing by those zero divisors (non-finite
components in IEEE doubles), and no error is signalled either way. -/
theorem c9_compute_empty_fit_paths (ext : Ext) (c : VtxCandidate)
    (h : c.fAssigned = [] ∨
      ∀ p ∈ c.fAssigned, segLength ext p.1.trk p.2 < c.fSegMinLength) :
    computeIncluded ext c = [] ∧ computeWsum ext c = 0 ∧ computeSegCount ext c = 0 ∧
    ((ext.solve []).1 < 0 → compute ext c = (1000000, ⟨0, 0, 0⟩, ⟨0, 0, 0⟩)) ∧
    (0 ≤ (ext.solve []).1 → compute ext c =
      ((ext.solve []).1,
       ⟨0 / computeWsum ext c, 0 / (computeSegCount ext c : ℚ),
        0 / (computeSegCount ext c : ℚ)⟩,
       ⟨ext.sqrtQ (0 / (computeSegCount ext c : ℚ)),
        ext.sqrtQ ((computeSegCount ext c : ℚ) / (computeSegCount ext c : ℚ)),
        ext.sqrtQ ((computeSegCount ext c : ℚ) / (computeSegCount ext c : ℚ))⟩)) := by
  obtain ⟨hinc, hw, hcnt⟩ := compute_no_admissible_segments ext c h
  refine ⟨hinc, hw, hcnt, ?_, ?_⟩
  · intro hneg
    unfold compute
    simp only [hinc, List.map_nil]
    rw [if_pos hneg]
  · intro hpos
    unfold compute
    simp only [hinc, List.map_nil, List.sum_nil]
    rw [if_neg (not_lt.mpr hpos)]

/-- Witness for C9 (amended): a candidate with an empty assigned set and
a solver returning a nonnegative residual on the empty line set, so the
zero-divisor division path is the one taken; the final conjunct
evaluates the divided result concretely (exact rationals take division
by zero to 0; IEEE doubles make the same components non-finite). -/
theorem c9_compute_empty_fit_paths_witness :
    (cEmpty.fAssigned = [] ∨
      ∀ p ∈ cEmpty.fAssigned, segLength extC9 p.1.trk p.2 < cEmpty.fSegMinLength) ∧
    0 ≤ (extC9.solve []).1 ∧
    compute extC9 cEmpty =
      ((extC9.solve []).1,
       ⟨0 / computeWsum extC9 cEmpty, 0 / (computeSegCount extC9 cEmpty : ℚ),
        0 / (computeSegCount extC9 cEmpty : ℚ)⟩,
       ⟨extC9.sqrtQ (0 / (computeSegCount extC9 cEmpty : ℚ)),
        extC9.sqrtQ ((computeSegCount extC9 cEmpty : ℚ) / (computeSegCount extC9 cEmpty : ℚ)),
        extC9.sqrtQ ((computeSegCount extC9 cEmpty : ℚ) / (computeSegCount extC9 cEmpty : ℚ))⟩) ∧
    compute extC9 cEmpty = (0, ⟨0, 0, 0⟩, ⟨0, 0, 0⟩) := by
  have h0 : (0 : ℚ) ≤ (extC9.solve []).1 := by
    have h : (extC9.solve []).1 = 0 := by with_unfolding_all rfl
    rw [h]
  exact ⟨Or.inl rfl, h0,
    (c9_compute_empty_fit_paths extC9 cEmpty (Or.inl rfl)).2.2.2.2 h0,
    by with_unfolding_all rfl⟩

/-! Claim C10: `MaxAngle` on an empty assigned set. -/

/-- C10: with an empty assigned set the unsigned loop bound
`fAssigned.size() - 1` of `MaxAngle` wraps to `2^64 - 1`, and the
reference-selection loop then visits an index (already its first, 0)
that is out of bounds for `fAssigned`. -/
theorem c10_maxAngle_empty_wraps (c : VtxCandidate) (h : c.fAssigned = []) :
    size_sub1 c.fAssigned.length = 2 ^ 64 - 1 ∧ ¬ maxAngleRefIndicesOK c := by
  constructor
  · rw [h]
    rfl
  · unfold maxAngleRefIndicesOK
    rw [h]
    intro hok
    have h0 : (0 : ℕ) ∈ List.range (size_sub1 (List.length ([] : List (TrkCandidate × ℕ)))) := by
      rw [List.mem_range]
      norm_num [size_sub1]
    have := hok 0 h0
    simp at this

/-- Witness for C10 at the empty candidate. -/
theorem c10_maxAngle_empty_wraps_witness :
    cEmpty.fAssigned = [] ∧
      (size_sub1 cEmpty.fAssigned.length = 2 ^ 64 - 1 ∧ ¬ maxAngleRefIndicesOK cEmpty) :=
  ⟨rfl, c10_maxAngle_empty_wraps cEmpty rfl⟩

/-! Claim C6: `JoinTracks` on an already committed candidate. -/

/-- C6: on a candidate whose `tracksJoined` flag is set, `JoinTracks`
reports the repeated-commit error and returns `false` without touching
the candidate, the graph, or the `tracks`/`src` collections. -/
theorem c6_join_committed_noop {G : Type} (jx : JExt G) (ext : Ext)
    (c : VtxCandidate) (g : G) (tracks src : List TrkCandidate)
    (h : c.tracksJoined = true) :
    joinTracks jx ext c g tracks src = .ok (false, c, g, tracks, src) := by
  unfold joinTracks
  rw [if_pos h]

/-- Witness for C6 at a concrete committed candidate. -/
theorem c6_join_committed_noop_witness :
    cJoined.tracksJoined = true ∧
    joinTracks jx0 ext0 cJoined () [] [] = .ok (false, cJoined, (), [], []) :=
  ⟨rfl, c6_join_committed_noop jx0 ext0 cJoined () [] [] rfl⟩

/-! Claim C1: state preservation of the failure paths of `MergeWith`. -/

/-- C1 failing input: `MergeWith(other)` passes the distance gate, pushes
track 2 (new, unattached), then hits the already-attached rejection on
track 3 and returns `false` - leaving track 2 appended to the assigned
set, with `fMse`/`fMse2D` untouched, so the candidate is NOT restored to
its pre-call state on this failure path. -/
theorem c1_mergeWith_attached_exit_keeps_push :
    mergeWith extC1 sC1 oC1 =
      .ok (false, { sC1 with fAssigned := [(⟨1, 0⟩, 0), (⟨2, 0⟩, 0)] }) ∧
    ({ sC1 with fAssigned := [(⟨1, 0⟩, 0), (⟨2, 0⟩, 0)] } : VtxCandidate).fAssigned
      ≠ sC1.fAssigned := by
  constructor
  · with_unfolding_all rfl
  · intro h
    have := congrArg List.length h
    simp [sC1] at this

/-! Claim C3: the segment search of `Add` at size at least 3. -/

/-- C3 counterexample: `Add` accepts segment index 0 of the new track
(the greedy scan rejects index 1 because its residual 2 is not below the
best residual 1 seen so far), although index 1 also has length above the
threshold, residual below `kMaxDistToTrack` squared, and a strictly
smaller fitted-point distance (1 versus 3) - so the accepted index is
not the distance minimizer among the qualifying segments. -/
theorem c3_add_not_distance_minimizer :
    add extC3 sC3 tC3 = .ok (true, recalcOn extC3 sC3 (sC3.fAssigned ++ [(tC3, 0)])) ∧
    candQual extC3 sC3 tC3 1 = true ∧
    candMse extC3 sC3 tC3 1 < kMax2 ∧
    candDist extC3 sC3 tC3 1 < candDist extC3 sC3 tC3 0 := by
  refine ⟨by with_unfolding_all rfl, by with_unfolding_all rfl, ?_, ?_⟩
  · have h : candMse extC3 sC3 tC3 1 = 2 := by with_unfolding_all rfl
    rw [h]
    norm_num [kMax2, kMaxDistToTrack]
  · have h1 : candDist extC3 sC3 tC3 1 = 1 := by with_unfolding_all rfl
    have h0 : candDist extC3 sC3 tC3 0 = 3 := by with_unfolding_all rfl
    rw [h1, h0]
    norm_num

/-! Claim C4: `MaxAngle`. -/

/-- C4 counterexample: the two assigned tracks are antiparallel, both
longer than `minLength = 1`; the angle between the direction of the
longest qualifying track and the other one is 180 degrees, but
`MaxAngle` returns 0: its reference loop never considers the last
assigned entry (so it picks the shorter track 1), and the folded cosine
`fabs(dir_i * dir_j) = 1` yields `acos(1) = 0`. -/
theorem c4_maxAngle_not_spec :
    maxAngle extC4 sC4 1 = 0 ∧ maxAngleSpec extC4 sC4 1 = 180 := by
  constructor
  · with_unfolding_all rfl
  · with_unfolding_all rfl

/-! Claim C2: failure handling of `JoinTracks`. -/

/-- C2 counterexample: the single track attaches at its front
(`nOK = 1`), the root subtree is loop-free, so the commit fails with
fewer than two successful attachments - yet the branch track 1 (listed
by `GetBranches` of the root) is NOT removed from the output `tracks`
collection, which still holds it when `JoinTracks` returns `false`. -/
theorem c2_join_nOK1_keeps_tracks :
    joinTracks jxC2 extC2 cC2 () [] [⟨1, 5⟩] =
      .ok (false, { cC2 with tracksJoined := true }, (), [⟨1, 5⟩], []) ∧
    (1 : ℕ) ∈ (jxC2.trkBranches () 1).2 := by
  constructor
  · with_unfolding_all rfl
  · with_unfolding_all (exact List.mem_singleton.mpr rfl)

/-! Claim C5: recomputation of derived state.  Helper lemmas first. -/

/-- `ComputeMse2D()` reads only the assigned set and the center. -/
theorem computeMse2D_congr (ext : Ext) (c1 c2 : VtxCandidate)
    (h1 : c1.fAssigned = c2.fAssigned) (h2 : c1.fCenter = c2.fCenter) :
    computeMse2D ext c1 = computeMse2D ext c2 := by
  unfold computeMse2D
  simp only [h1, h2]

/-- After the `Compute(); ComputeMse2D()` commit sequence the derived
state is exactly a fresh recomputation from the assigned set. -/
theorem commitFit_recalced (ext : Ext) (c : VtxCandidate) :
    Recalced ext (commitFit ext c) := by
  have hc : compute ext (commitFit ext c) = compute ext c :=
    compute_congr ext _ _ rfl rfl
  have hm : computeMse2D ext (commitFit ext c) =
      computeMse2D ext { (computeUpd ext c).2 with fMse := (computeUpd ext c).1 } :=
    computeMse2D_congr ext _ _ rfl rfl
  refine ⟨?_, ?_, ?_, ?_⟩
  · rw [hc]; rfl
  · rw [hc]; rfl
  · rw [hc]; rfl
  · rw [hm]; rfl

/-- `recalcOn` produces a recalced state. -/
theorem recalcOn_recalced (ext : Ext) (c : VtxCandidate)
    (assigned : List (TrkCandidate × ℕ)) :
    Recalced ext (recalcOn ext c assigned) :=
  commitFit_recalced ext { c with fAssigned := assigned }

/-- The assigned set of a `recalcOn` state. -/
theorem recalcOn_fAssigned (ext : Ext) (c : VtxCandidate)
    (assigned : List (TrkCandidate × ℕ)) :
    (recalcOn ext c assigned).fAssigned = assigned := rfl

/-- Characterization of the collection loop of `MergeWith`: it only
appends entries at the tail and counts them, leaving every other field
alone. -/
theorem mergeLoop_spec (ext : Ext) :
    ∀ (ps : List (TrkCandidate × ℕ)) (c : VtxCandidate) (n : ℕ)
      (flag : Bool) (c' : VtxCandidate) (n' : ℕ),
      mergeLoop ext ps c n = .ok (flag, c', n') →
      ∃ l, c' = { c with fAssigned := c.fAssigned ++ l } ∧ n' = n + l.length := by
  intro ps
  induction ps with
  | nil =>
    intro c n flag c' n' h
    simp only [mergeLoop, Except.ok.injEq, Prod.mk.injEq] at h
    refine ⟨[], ?_, ?_⟩
    · rw [← h.2.1]; simp
    · rw [← h.2.2]; simp
  | cons p rest ih =>
    intro c n flag c' n' h
    unfold mergeLoop at h
    cases hr : IsAttached ext c p.1.trk with
    | error e =>
      rw [hr] at h
      simp [Bind.bind, Except.bind] at h
    | ok att =>
      rw [hr] at h
      simp only [Bind.bind, Except.bind] at h
      cases att with
      | true =>
        simp only [if_true, Except.ok.injEq, Prod.mk.injEq] at h
        refine ⟨[], ?_, ?_⟩
        · rw [← h.2.1]; simp
        · rw [← h.2.2]; simp
      | false =>
        simp only [Bool.false_eq_true, if_false] at h
        by_cases hhas : Has c p.1.trk = true
        · rw [if_pos hhas] at h
          exact ih c n flag c' n' h
        · rw [if_neg hhas] at h
          obtain ⟨l, hcl, hnl⟩ :=
            ih { c with fAssigned := c.fAssigned ++ [p] } (n + 1) flag c' n' h
          refine ⟨p :: l, ?_, ?_⟩
          · rw [hcl]
            simp
          · rw [hnl]
            simp
            omega

/-- A successful `MergeWith` leaves a recalced state. -/
theorem mergeWith_true_recalced (ext : Ext) (c other s' : VtxCandidate)
    (h : mergeWith ext c other = .ok (true, s')) : Recalced ext s' := by
  unfold mergeWith at h
  by_cases hg : 10 < ext.sqrtQ (dist2 c.fCenter other.fCenter)
  · rw [if_pos hg] at h
    simp [pure, Except.pure] at h
  · rw [if_neg hg] at h
    simp only [Bind.bind] at h
    cases hm : mergeLoop ext other.fAssigned c 0 with
    | error e =>
      rw [hm] at h
      simp [pure, Except.pure, Except.bind] at h
    | ok lr =>
      rw [hm] at h
      obtain ⟨flag, c1, n1⟩ := lr
      simp only [Except.bind] at h
      cases flag with
      | false => simp [pure, Except.pure] at h
      | true =>
        simp only [Bool.not_true, Bool.false_eq_true, if_false] at h
        by_cases hn : n1 ≠ 0
        · rw [if_pos hn] at h
          by_cases hr1 : (computeUpd ext c1).1 < 1
          · rw [if_pos hr1] at h
            simp only [pure, Except.pure, Except.ok.injEq, Prod.mk.injEq] at h
            rw [← h.2]
            exact commitFit_recalced ext c1
          · rw [if_neg hr1] at h
            simp [pure, Except.pure] at h
        · rw [if_neg hn] at h
          simp [pure, Except.pure] at h

/-- Disposition of every failure path of `MergeWith`: unchanged state
(distance gate, no new track, empty early exit), rolled-back and refit
state (high residual), or - the already-attached early exit after at
least one push - an extended assigned set with stale derived state. -/
theorem mergeWith_false_paths (ext : Ext) (c other s' : VtxCandidate)
    (h : mergeWith ext c other = .ok (false, s')) :
    s' = c ∨ (s'.fAssigned = c.fAssigned ∧ Recalced ext s') ∨
    (∃ l, l ≠ [] ∧ s'.fAssigned = c.fAssigned ++ l ∧ s'.fCenter = c.fCenter ∧
      s'.fErr = c.fErr ∧ s'.fMse = c.fMse ∧ s'.fMse2D = c.fMse2D) := by
  unfold mergeWith at h
  by_cases hg : 10 < ext.sqrtQ (dist2 c.fCenter other.fCenter)
  · rw [if_pos hg] at h
    simp only [pure, Except.pure, Except.ok.injEq, Prod.mk.injEq] at h
    exact Or.inl h.2.symm
  · rw [if_neg hg] at h
    simp only [Bind.bind] at h
    cases hm : mergeLoop ext other.fAssigned c 0 with
    | error e =>
      rw [hm] at h
      simp [pure, Except.pure, Except.bind] at h
    | ok lr =>
      rw [hm] at h
      obtain ⟨flag, c1, n1⟩ := lr
      simp only [Except.bind] at h
      obtain ⟨l, hc1, hn1⟩ := mergeLoop_spec ext other.fAssigned c 0 flag c1 n1 hm
      cases flag with
      | false =>
        simp only [Bool.not_false, if_true, pure, Except.pure, Except.ok.injEq,
          Prod.mk.injEq] at h
        cases l with
        | nil =>
          left
          rw [← h.2, hc1]
          simp
        | cons q ql =>
          right; right
          refine ⟨q :: ql, by simp, ?_, ?_, ?_, ?_, ?_⟩ <;> rw [← h.2, hc1]
      | true =>
        simp only [Bool.not_true, Bool.false_eq_true, if_false] at h
        by_cases hn : n1 ≠ 0
        · rw [if_pos hn] at h
          by_cases hr1 : (computeUpd ext c1).1 < 1
          · rw [if_pos hr1] at h
            simp [pure, Except.pure] at h
          · rw [if_neg hr1] at h
            simp only [pure, Except.pure, Except.ok.injEq, Prod.mk.injEq] at h
            right; left
            have hrest : c1.fAssigned.take (c1.fAssigned.length - n1) = c.fAssigned := by
              rw [hc1, hn1]
              simp only [List.length_append, Nat.zero_add, Nat.add_sub_cancel]
              exact List.take_left c.fAssigned l
            rw [← h.2, hrest]
            exact ⟨recalcOn_fAssigned ext c1 c.fAssigned,
              recalcOn_recalced ext c1 c.fAssigned⟩
        · rw [if_neg hn] at h
          simp only [pure, Except.pure, Except.ok.injEq, Prod.mk.injEq] at h
          left
          have hl : l = [] := by
            have : n1 = l.length := by omega
            rw [this] at hn
            simp at hn
            exact hn
          rw [← h.2, hc1, hl]
          simp

/-- The first successful `Add` (size becomes 1) only appends the entry:
center, error and both residuals are left untouched. -/
theorem add_first_success (ext : Ext) (c : VtxCandidate) (t : TrkCandidate)
    (s' : VtxCandidate) (hE : c.fAssigned = []) (h : add ext c t = .ok (true, s')) :
    s' = withTrial c t 0 := by
  unfold add at h
  cases hr : IsAttached ext c t.trk with
  | error e =>
    rw [hr] at h
    simp [Bind.bind, Except.bind] at h
  | ok att =>
    rw [hr] at h
    simp only [Bind.bind, Except.bind] at h
    cases att with
    | true => simp [pure, Except.pure] at h
    | false =>
      simp only [Bool.false_eq_true, if_false, pure, Except.pure] at h
      simp only [hE, List.length_nil] at h
      rw [if_neg (by norm_num : ¬ (2 < 0 + 1)), if_neg (by norm_num : ¬ (0 + 1 = 2))] at h
      by_cases ha : ((List.range ((ext.nodesOf t.trk).length - 1)).any
          (fun n => decide (c.fSegMinLength ≤ segLength ext t.trk n))) = true
      · rw [if_pos ha] at h
        simp only [Except.ok.injEq, Prod.mk.injEq] at h
        exact h.2.symm
      · rw [if_neg ha] at h
        simp at h

/-- A successful `Add` onto a nonempty candidate leaves a recalced
state. -/
theorem add_growth_success_recalced (ext : Ext) (c : VtxCandidate)
    (t : TrkCandidate) (s' : VtxCandidate) (hNE : c.fAssigned ≠ [])
    (h : add ext c t = .ok (true, s')) : Recalced ext s' := by
  unfold add at h
  cases hr : IsAttached ext c t.trk with
  | error e =>
    rw [hr] at h
    simp [Bind.bind, Except.bind] at h
  | ok att =>
    rw [hr] at h
    simp only [Bind.bind, Except.bind] at h
    cases att with
    | true => simp [pure, Except.pure] at h
    | false =>
      simp only [Bool.false_eq_true, if_false] at h
      by_cases h2 : 2 < c.fAssigned.length + 1
      · rw [if_pos h2] at h
        by_cases hd : (addScanGT2 ext c t (List.range ((ext.nodesOf t.trk).length - 1))
            (kMax2, 0, kMaxDistToTrack)).2.2 < kMaxDistToTrack
        · rw [if_pos hd] at h
          simp only [pure, Except.pure, Except.ok.injEq, Prod.mk.injEq] at h
          rw [← h.2]
          exact recalcOn_recalced ext c _
        · rw [if_neg hd] at h
          simp [pure, Except.pure] at h
      · rw [if_neg h2] at h
        by_cases h1 : c.fAssigned.length + 1 = 2
        · rw [if_pos h1] at h
          by_cases hd : (addScan2Outer ext c (c.fAssigned.headD (⟨0, 0⟩, 0)).1 t
              ((ext.nodesOf t.trk).length)
              (List.range ((ext.nodesOf (c.fAssigned.headD (⟨0, 0⟩, 0)).1.trk).length - 1))
              (((kMax2, 0, 0, kMaxDistToTrack, 0), c.fErr),
                (c.fAssigned.headD (⟨0, 0⟩, 0)).2)).1.1.2.2.2.1 < kMaxDistToTrack
          · rw [if_pos hd] at h
            simp only [pure, Except.pure, Except.ok.injEq, Prod.mk.injEq] at h
            rw [← h.2]
            exact recalcOn_recalced ext c _
          · rw [if_neg hd] at h
            simp [pure, Except.pure] at h
        · exfalso
          have : c.fAssigned.length = 0 := by omega
          exact hNE (List.length_eq_zero.mp this)

/-- A failed `Add` at size 3 or more removes the appended entry and
refits, restoring a recalced state over the original assigned set. -/
theorem add_gt2_failure_recalced (ext : Ext) (c : VtxCandidate)
    (t : TrkCandidate) (s' : VtxCandidate) (hL : 2 ≤ c.fAssigned.length)
    (hA : IsAttached ext c t.trk = .ok false)
    (h : add ext c t = .ok (false, s')) :
    s'.fAssigned = c.fAssigned ∧ Recalced ext s' := by
  unfold add at h
  rw [hA] at h
  simp only [Bind.bind, Except.bind, Bool.false_eq_true, if_false] at h
  have h2 : 2 < c.fAssigned.length + 1 := by omega
  rw [if_pos h2] at h
  by_cases hd : (addScanGT2 ext c t (List.range ((ext.nodesOf t.trk).length - 1))
      (kMax2, 0, kMaxDistToTrack)).2.2 < kMaxDistToTrack
  · rw [if_pos hd] at h
    simp [pure, Except.pure] at h
  · rw [if_neg hd] at h
    simp only [pure, Except.pure, Except.ok.injEq, Prod.mk.injEq] at h
    rw [← h.2]
    exact ⟨recalcOn_fAssigned ext c c.fAssigned, recalcOn_recalced ext c c.fAssigned⟩

/-- A failed first `Add` (resulting size 1) pops the entry and resets
the center and both residuals to zero, leaving `fErr` untouched. -/
theorem add_size1_failure_reset (ext : Ext) (c : VtxCandidate) (t : TrkCandidate)
    (s' : VtxCandidate) (hE : c.fAssigned = [])
    (h : add ext c t = .ok (false, s')) :
    s' = { c with fCenter := ⟨0, 0, 0⟩, fMse := 0, fMse2D := 0 } := by
  unfold add at h
  cases hr : IsAttached ext c t.trk with
  | error e =>
    rw [hr] at h
    simp [Bind.bind, Except.bind] at h
  | ok att =>
    rw [hr] at h
    simp only [Bind.bind, Except.bind] at h
    cases att with
    | true =>
      exfalso
      unfold IsAttached at hr
      cases hg : ext.getRoot t.trk with
      | none =>
        rw [hg] at hr
        simp at hr
      | some rootTrk =>
        rw [hg] at hr
        simp only [] at hr
        rw [hE] at hr
        simp [isAttachedAux] at hr
    | false =>
      simp only [Bool.false_eq_true, if_false, pure, Except.pure] at h
      simp only [hE, List.length_nil] at h
      rw [if_neg (by norm_num : ¬ (2 < 0 + 1)), if_neg (by norm_num : ¬ (0 + 1 = 2))] at h
      by_cases ha : ((List.range ((ext.nodesOf t.trk).length - 1)).any
          (fun n => decide (c.fSegMinLength ≤ segLength ext t.trk n))) = true
      · rw [if_pos ha] at h
        simp at h
      · rw [if_neg ha] at h
        simp only [Except.ok.injEq, Prod.mk.injEq] at h
        rw [hE]
        exact h.2.symm

/-- A failed second `Add` (resulting size 2) pops the appended entry but
keeps the first track's last scanned segment index, zeroes the center
and both residuals, and leaves `fErr` at whatever the last scan
`Compute()` wrote (or the pre-call value if nothing was scanned). -/
theorem add_size2_failure_reset (ext : Ext) (c : VtxCandidate) (t : TrkCandidate)
    (s' : VtxCandidate) (hL : c.fAssigned.length = 1)
    (hA : IsAttached ext c t.trk = .ok false)
    (h : add ext c t = .ok (false, s')) :
    s' = { c with
           fAssigned := [((c.fAssigned.headD (⟨0, 0⟩, 0)).1,
             (addScan2Outer ext c (c.fAssigned.headD (⟨0, 0⟩, 0)).1 t
               ((ext.nodesOf t.trk).length)
               (List.range ((ext.nodesOf (c.fAssigned.headD (⟨0, 0⟩, 0)).1.trk).length - 1))
               (((kMax2, 0, 0, kMaxDistToTrack, 0), c.fErr),
                 (c.fAssigned.headD (⟨0, 0⟩, 0)).2)).2)],
           fCenter := ⟨0, 0, 0⟩,
           fErr := (addScan2Outer ext c (c.fAssigned.headD (⟨0, 0⟩, 0)).1 t
             ((ext.nodesOf t.trk).length)
             (List.range ((ext.nodesOf (c.fAssigned.headD (⟨0, 0⟩, 0)).1.trk).length - 1))
             (((kMax2, 0, 0, kMaxDistToTrack, 0), c.fErr),
               (c.fAssigned.headD (⟨0, 0⟩, 0)).2)).1.2,
           fMse := 0, fMse2D := 0 } := by
  unfold add at h
  rw [hA] at h
  simp only [Bind.bind, Except.bind, Bool.false_eq_true, if_false, pure, Except.pure] at h
  simp only [hL] at h
  rw [if_neg (by norm_num : ¬ (2 < 1 + 1))] at h
  rw [if_pos trivial] at h
  by_cases hd : (addScan2Outer ext c (c.fAssigned.headD (⟨0, 0⟩, 0)).1 t
      ((ext.nodesOf t.trk).length)
      (List.range ((ext.nodesOf (c.fAssigned.headD (⟨0, 0⟩, 0)).1.trk).length - 1))
      (((kMax2, 0, 0, kMaxDistToTrack, 0), c.fErr),
        (c.fAssigned.headD (⟨0, 0⟩, 0)).2)).1.1.2.2.2.1 < kMaxDistToTrack
  · rw [if_pos hd] at h
    simp at h
  · rw [if_neg hd] at h
    simp only [Except.ok.injEq, Prod.mk.injEq] at h
    exact h.2.symm

/-- A committing (`true`-returning) `joinFinalize` clears the assigned
set, zeroes both residuals and sets the center to the vertex node's
point. -/
theorem joinFinalize_ok_true {G : Type} (jx : JExt G) (c : VtxCandidate)
    (st : JoinState G) (src : List TrkCandidate) (c' : VtxCandidate) (g' : G)
    (ts' src' : List TrkCandidate)
    (h : joinFinalize jx c st src = .ok (true, c', g', ts', src')) :
    c'.fAssigned = [] ∧ c'.fMse = 0 ∧ c'.fMse2D = 0 ∧
    ∃ v, st.vtxCenter = some v ∧ c'.fCenter = jx.pointOf st.g v := by
  unfold joinFinalize at h
  cases hv : st.vtxCenter with
  | none =>
    rw [hv] at h
    simp at h
  | some v =>
    rw [hv] at h
    simp only [] at h
    cases hrs : rootSegOf jx st.g v with
    | error e =>
      rw [hrs] at h
      simp at h
    | ok rs =>
      rw [hrs] at h
      simp only [] at h
      by_cases hb : (jx.trkBranches st.g (joinRootTrk jx st.g rs)).1 = true ∧ 1 < st.nOK
      · rw [if_pos hb] at h
        by_cases ht : -2 < (jx.tuneFullTree st.g (joinRootTrk jx st.g rs)).1
        · rw [if_pos ht] at h
          simp only [Except.ok.injEq, Prod.mk.injEq] at h
          rw [← h.2.1]
          exact ⟨rfl, rfl, rfl, v, rfl, rfl⟩
        · rw [if_neg ht] at h
          simp at h
      · rw [if_neg hb] at h
        split_ifs at h <;> simp at h

/-- A committing (`true`-returning) `JoinTracks` clears the assigned
set, zeroes both residuals, and sets the center to the point of the
vertex node chosen by the attachment loop - not a recomputation from
the now-empty assigned set. -/
theorem joinTracks_ok_true {G : Type} (jx : JExt G) (ext : Ext)
    (c : VtxCandidate) (g : G) (tracks src : List TrkCandidate)
    (c' : VtxCandidate) (g' : G) (ts' src' : List TrkCandidate)
    (h : joinTracks jx ext c g tracks src = .ok (true, c', g', ts', src')) :
    c'.fAssigned = [] ∧ c'.fMse = 0 ∧ c'.fMse2D = 0 ∧
    ∃ v, (joinLoopState jx ext c g tracks src).vtxCenter = some v ∧
      c'.fCenter = jx.pointOf (joinLoopState jx ext c g tracks src).g v := by
  unfold joinTracks at h
  by_cases hj : c.tracksJoined = true
  · rw [if_pos hj] at h
    simp at h
  · rw [if_neg hj] at h
    simp only [] at h
    exact joinFinalize_ok_true jx _ _ _ c' g' ts' src' h

/-- C5 counterexample: on this instance the first `Add` succeeds and
returns with the assigned set mutated but `fMse` (still 0) different
from what `Compute()` on the new assigned set yields (5) - the derived
state is not recomputed before the operation returns. -/
theorem c5_first_add_skips_recompute :
    add extC5 cEmpty tOne = .ok (true, withTrial cEmpty tOne 0) ∧
    (compute extC5 (withTrial cEmpty tOne 0)).1 ≠ (withTrial cEmpty tOne 0).fMse := by
  constructor
  · with_unfolding_all rfl
  · have h1 : (compute extC5 (withTrial cEmpty tOne 0)).1 = 5 := by
      with_unfolding_all rfl
    have h2 : (withTrial cEmpty tOne 0).fMse = 0 := rfl
    rw [h1, h2]
    norm_num

/-- C5 (amended): derived state is recomputed from the assigned set
before returning by every mutating `Add` path at size two or more
(success) and by the size-3-or-more `Add` rollback and the `MergeWith`
success and rollback paths; the first successful `Add` leaves the
derived state untouched; failed `Add` calls at resulting sizes 1 and 2
pop the appended entry and reset the center and both residuals to zero
instead of recomputing (at size 2 the first track's scanned segment
index and the error vector written by the last scan fit are kept);
`MergeWith`'s gate/no-new failures leave the state unchanged while its
already-attached early exit can leave appended entries with stale
derived state; a committing `JoinTracks` clears the assigned set,
zeroes both residuals and sets the center to the point of the vertex
node chosen by the attachment loop rather than recomputing. -/
theorem c5_derived_state_policy :
    (∀ (ext : Ext) (c : VtxCandidate) (t : TrkCandidate) (s' : VtxCandidate),
      c.fAssigned = [] → add ext c t = .ok (true, s') → s' = withTrial c t 0) ∧
    (∀ (ext : Ext) (c : VtxCandidate) (t : TrkCandidate) (s' : VtxCandidate),
      c.fAssigned ≠ [] → add ext c t = .ok (true, s') → Recalced ext s') ∧
    (∀ (ext : Ext) (c : VtxCandidate) (t : TrkCandidate) (s' : VtxCandidate),
      2 ≤ c.fAssigned.length → IsAttached ext c t.trk = .ok false →
      add ext c t = .ok (false, s') → s'.fAssigned = c.fAssigned ∧ Recalced ext s') ∧
    (∀ (ext : Ext) (c : VtxCandidate) (t : TrkCandidate) (s' : VtxCandidate),
      c.fAssigned = [] → add ext c t = .ok (false, s') →
      s' = { c with fCenter := ⟨0, 0, 0⟩, fMse := 0, fMse2D := 0 }) ∧
    (∀ (ext : Ext) (c : VtxCandidate) (t : TrkCandidate) (s' : VtxCandidate),
      c.fAssigned.length = 1 → IsAttached ext c t.trk = .ok false →
      add ext c t = .ok (false, s') →
      s' = { c with
             fAssigned := [((c.fAssigned.headD (⟨0, 0⟩, 0)).1,
               (addScan2Outer ext c (c.fAssigned.headD (⟨0, 0⟩, 0)).1 t
                 ((ext.nodesOf t.trk).length)
                 (List.range ((ext.nodesOf (c.fAssigned.headD (⟨0, 0⟩, 0)).1.trk).length - 1))
                 (((kMax2, 0, 0, kMaxDistToTrack, 0), c.fErr),
                   (c.fAssigned.headD (⟨0, 0⟩, 0)).2)).2)],
             fCenter := ⟨0, 0, 0⟩,
             fErr := (addScan2Outer ext c (c.fAssigned.headD (⟨0, 0⟩, 0)).1 t
               ((ext.nodesOf t.trk).length)
               (List.range ((ext.nodesOf (c.fAssigned.headD (⟨0, 0⟩, 0)).1.trk).length - 1))
               (((kMax2, 0, 0, kMaxDistToTrack, 0), c.fErr),
                 (c.fAssigned.headD (⟨0, 0⟩, 0)).2)).1.2,
             fMse := 0, fMse2D := 0 }) ∧
    (∀ (ext : Ext) (c other s' : VtxCandidate),
      mergeWith ext c other = .ok (true, s') → Recalced ext s') ∧
    (∀ (ext : Ext) (c other s' : VtxCandidate),
      mergeWith ext c other = .ok (false, s') →
      s' = c ∨ (s'.fAssigned = c.fAssigned ∧ Recalced ext s') ∨
      (∃ l, l ≠ [] ∧ s'.fAssigned = c.fAssigned ++ l ∧ s'.fCenter = c.fCenter ∧
        s'.fErr = c.fErr ∧ s'.fMse = c.fMse ∧ s'.fMse2D = c.fMse2D)) ∧
    (∀ (G : Type) (jx : JExt G) (ext : Ext) (c : VtxCandidate) (g : G)
      (tracks src : List TrkCandidate) (c' : VtxCandidate) (g' : G)
      (ts' src' : List TrkCandidate),
      joinTracks jx ext c g tracks src = .ok (true, c', g', ts', src') →
      c'.fAssigned = [] ∧ c'.fMse = 0 ∧ c'.fMse2D = 0 ∧
      ∃ v, (joinLoopState jx ext c g tracks src).vtxCenter = some v ∧
        c'.fCenter = jx.pointOf (joinLoopState jx ext c g tracks src).g v) :=
  ⟨add_first_success, add_growth_success_recalced, add_gt2_failure_recalced,
    add_size1_failure_reset, add_size2_failure_reset,
    mergeWith_true_recalced, mergeWith_false_paths,
    fun _ => joinTracks_ok_true⟩

/-- Witness for C5 (amended), applying the nonempty-`Add` conjunct at
the concrete C3 instance. -/
theorem c5_derived_state_policy_witness :
    sC3.fAssigned ≠ [] ∧
    Recalced extC3 (recalcOn extC3 sC3 (sC3.fAssigned ++ [(tC3, 0)])) := by
  refine ⟨by simp [sC3], ?_⟩
  exact c5_derived_state_policy.2.1 extC3 sC3 tC3
    (recalcOn extC3 sC3 (sC3.fAssigned ++ [(tC3, 0)]))
    (by simp [sC3]) (by with_unfolding_all rfl)

/-! Claim C3 (amended): characterization of the size-3-or-more scan. -/

/-- The scan loop of `Add` computes exactly the greedy selection rule
(the distance of a candidate is only consulted after its residual beats
the running best residual, both thresholds tighten as the scan
proceeds). -/
theorem addScanGT2_eq_greedy (ext : Ext) (c : VtxCandidate) (t : TrkCandidate) :
    ∀ (ns : List ℕ) (acc : ℚ × ℕ × ℚ),
      addScanGT2 ext c t ns acc = greedySelect ext c t ns acc := by
  intro ns
  induction ns with
  | nil => intro acc; rfl
  | cons n rest ih =>
    intro acc
    unfold addScanGT2 greedySelect
    by_cases hq : segLength ext t.trk n < c.fSegMinLength
    · rw [if_pos hq]
      have hcond : ¬ (candQual ext c t n = true ∧ candMse ext c t n < acc.1 ∧
          candDist ext c t n < acc.2.2) := by
        intro hcon
        have : candQual ext c t n = false := by
          simp [candQual, hq]
        rw [this] at hcon
        exact absurd hcon.1 (by simp)
      rw [if_neg hcond]
      exact ih acc
    · rw [if_neg hq]
      have hqt : candQual ext c t n = true := by
        simp [candQual, hq]
      by_cases hm : candMse ext c t n < acc.1
      · rw [if_pos hm]
        by_cases hd : candDist ext c t n < acc.2.2
        · rw [if_pos hd, if_pos ⟨hqt, hm, hd⟩]
          exact ih _
        · rw [if_neg hd, if_neg (fun hcon => hd hcon.2.2)]
          exact ih acc
      · rw [if_neg hm, if_neg (fun hcon => hm hcon.2.1)]
        exact ih acc

/-- On the size-3-or-more path (no attachment rejection), `Add` reduces
to the single threshold test on the scanned best distance. -/
theorem add_gt2_eq (ext : Ext) (c : VtxCandidate) (t : TrkCandidate)
    (hL : 2 ≤ c.fAssigned.length) (hA : IsAttached ext c t.trk = .ok false) :
    add ext c t =
      if (addScanGT2 ext c t (List.range ((ext.nodesOf t.trk).length - 1))
          (kMax2, 0, kMaxDistToTrack)).2.2 < kMaxDistToTrack
      then .ok (true, recalcOn ext c (c.fAssigned ++
        [(t, (addScanGT2 ext c t (List.range ((ext.nodesOf t.trk).length - 1))
          (kMax2, 0, kMaxDistToTrack)).2.1)]))
      else .ok (false, recalcOn ext c c.fAssigned) := by
  unfold add
  rw [hA]
  simp only [Bind.bind, Except.bind, Bool.false_eq_true, if_false, pure, Except.pure]
  rw [if_pos (by omega : 2 < c.fAssigned.length + 1)]

/-- C3 (amended): at candidate size 3 or more (and no attachment
rejection) the scan of `Add` follows the greedy rule of `greedySelect`
rather than a global distance argmin: `Add` succeeds exactly when the
greedily selected best distance is strictly below `kMaxDistToTrack`,
committing the greedily selected index and refitting; otherwise it
removes the appended entry and refits the original assigned set. -/
theorem c3_add_greedy_selection :
    (∀ (ext : Ext) (c : VtxCandidate) (t : TrkCandidate) (ns : List ℕ)
      (acc : ℚ × ℕ × ℚ), addScanGT2 ext c t ns acc = greedySelect ext c t ns acc) ∧
    (∀ (ext : Ext) (c : VtxCandidate) (t : TrkCandidate) (s' : VtxCandidate),
      2 ≤ c.fAssigned.length → IsAttached ext c t.trk = .ok false →
      (add ext c t = .ok (true, s') ↔
        (greedySelect ext c t (List.range ((ext.nodesOf t.trk).length - 1))
          (kMax2, 0, kMaxDistToTrack)).2.2 < kMaxDistToTrack ∧
        s' = recalcOn ext c (c.fAssigned ++
          [(t, (greedySelect ext c t (List.range ((ext.nodesOf t.trk).length - 1))
            (kMax2, 0, kMaxDistToTrack)).2.1)]))) ∧
    (∀ (ext : Ext) (c : VtxCandidate) (t : TrkCandidate) (s' : VtxCandidate),
      2 ≤ c.fAssigned.length → IsAttached ext c t.trk = .ok false →
      (add ext c t = .ok (false, s') ↔
        ¬ (greedySelect ext c t (List.range ((ext.nodesOf t.trk).length - 1))
          (kMax2, 0, kMaxDistToTrack)).2.2 < kMaxDistToTrack ∧
        s' = recalcOn ext c c.fAssigned)) := by
  refine ⟨addScanGT2_eq_greedy, ?_, ?_⟩
  · intro ext c t s' hL hA
    rw [add_gt2_eq ext c t hL hA, addScanGT2_eq_greedy]
    by_cases hd : (greedySelect ext c t (List.range ((ext.nodesOf t.trk).length - 1))
        (kMax2, 0, kMaxDistToTrack)).2.2 < kMaxDistToTrack
    · rw [if_pos hd]
      simp only [Except.ok.injEq, Prod.mk.injEq, true_and, hd]
      exact eq_comm
    · rw [if_neg hd]
      simp only [Except.ok.injEq, Prod.mk.injEq]
      constructor
      · intro hp
        exact absurd hp.1 (by simp)
      · intro hp
        exact absurd hp.1 hd
  · intro ext c t s' hL hA
    rw [add_gt2_eq ext c t hL hA, addScanGT2_eq_greedy]
    by_cases hd : (greedySelect ext c t (List.range ((ext.nodesOf t.trk).length - 1))
        (kMax2, 0, kMaxDistToTrack)).2.2 < kMaxDistToTrack
    · rw [if_pos hd]
      simp only [Except.ok.injEq, Prod.mk.injEq]
      constructor
      · intro hp
        exact absurd hp.1 (by simp)
      · intro hp
        exact absurd hd hp.1
    · rw [if_neg hd]
      simp only [Except.ok.injEq, Prod.mk.injEq, true_and]
      exact ⟨fun hp => ⟨hd, hp.symm⟩, fun hp => hp.2.symm⟩

/-- Witness for C3 (amended) at the concrete C3 instance: the greedy
best distance is 3 (below 4), so `Add` succeeds committing the greedy
index 0. -/
theorem c3_add_greedy_selection_witness :
    2 ≤ sC3.fAssigned.length ∧
    IsAttached extC3 sC3 tC3.trk = .ok false ∧
    add extC3 sC3 tC3 = .ok (true, recalcOn extC3 sC3 (sC3.fAssigned ++
      [(tC3, (greedySelect extC3 sC3 tC3
        (List.range ((extC3.nodesOf tC3.trk).length - 1))
        (kMax2, 0, kMaxDistToTrack)).2.1)])) := by
  refine ⟨by simp [sC3], by with_unfolding_all rfl, ?_⟩
  refine (c3_add_greedy_selection.2.1 extC3 sC3 tC3 _ (by simp [sC3])
    (by with_unfolding_all rfl)).mpr ⟨?_, rfl⟩
  have h : (greedySelect extC3 sC3 tC3
      (List.range ((extC3.nodesOf tC3.trk).length - 1))
      (kMax2, 0, kMaxDistToTrack)).2.2 = 3 := by
    with_unfolding_all rfl
  rw [h]
  norm_num [kMaxDistToTrack]

/-! Claim C4 (amended): characterization of `MaxAngle`. -/

/-- The reference index selected by the first loop of `MaxAngle` is
either the initial index or one of the visited indices. -/
theorem maxAngleRefScan_idx (ext : Ext) (c : VtxCandidate) :
    ∀ (ns : List ℕ) (acc : ℚ × ℕ × Vec3),
      (maxAngleRefScan ext c ns acc).2.1 = acc.2.1 ∨
      (maxAngleRefScan ext c ns acc).2.1 ∈ ns := by
  intro ns
  induction ns with
  | nil => intro acc; exact Or.inl rfl
  | cons i rest ih =>
    intro acc
    simp only [maxAngleRefScan]
    by_cases hl : acc.1 < ext.trackLength (c.fAssigned.getD i (⟨0, 0⟩, 0)).1.trk
    · rw [if_pos hl]
      rcases ih (ext.trackLength (c.fAssigned.getD i (⟨0, 0⟩, 0)).1.trk, i,
        entryDir ext (c.fAssigned.getD i (⟨0, 0⟩, 0))) with h | h
      · right
        rw [h]
        exact List.mem_cons_self i rest
      · right
        exact List.mem_cons_of_mem i h
    · rw [if_neg hl]
      rcases ih acc with h | h
      · exact Or.inl h
      · right
        exact List.mem_cons_of_mem i h

/-- The second loop of `MaxAngle` folds the running minimum of absolute
cosines downward: the result stays within `[0, mn]` whenever the start
value `mn` is nonnegative. -/
theorem maxAngleMinScan_bounds (ext : Ext) (c : VtxCandidate) (ml : ℚ)
    (maxIdx : ℕ) (dirI : Vec3) :
    ∀ (js : List ℕ) (mn : ℚ), 0 ≤ mn →
      0 ≤ maxAngleMinScan ext c ml maxIdx dirI js mn ∧
      maxAngleMinScan ext c ml maxIdx dirI js mn ≤ mn := by
  intro js
  induction js with
  | nil => intro mn h; exact ⟨h, le_refl mn⟩
  | cons j rest ih =>
    intro mn h
    simp only [maxAngleMinScan]
    by_cases hc : j ≠ maxIdx ∧ ml < ext.trackLength (c.fAssigned.getD j (⟨0, 0⟩, 0)).1.trk
    · rw [if_pos hc]
      by_cases ha : |dot dirI (entryDir ext (c.fAssigned.getD j (⟨0, 0⟩, 0)))| < mn
      · rw [if_pos ha]
        obtain ⟨h1, h2⟩ := ih _ (abs_nonneg _)
        exact ⟨h1, le_trans h2 (le_of_lt ha)⟩
      · rw [if_neg ha]
        exact ih mn h
    · rw [if_neg hc]
      exact ih mn h

set_option maxRecDepth 16000 in
/-- C4 (amended): the reference direction of `MaxAngle` is selected by a
strict running maximum of track length over the first `size - 1`
assigned entries only (never the last entry, and with no `minLength`
filter), and the returned value is `180 * acos(m) / pi` for a folded
minimum `m` of absolute cosines with `0 <= m <= 1` - so with the real
arc cosine the result lies in the 0-90 degree range, not 0-180. -/
theorem c4_maxAngle_characterization :
    (∀ (ext : Ext) (c : VtxCandidate),
      2 ≤ c.fAssigned.length → c.fAssigned.length < 2 ^ 64 →
      (maxAngleRefScan ext c (List.range (size_sub1 c.fAssigned.length))
        (0, 0, ⟨0, 0, 0⟩)).2.1 < c.fAssigned.length - 1) ∧
    (∀ (ext : Ext) (c : VtxCandidate) (ml : ℚ),
      ∃ m, 0 ≤ m ∧ m ≤ 1 ∧ maxAngle ext c ml = 180 * ext.acosQ m / ext.piQ) := by
  constructor
  · intro ext c h2 hlt
    have hs : size_sub1 c.fAssigned.length = c.fAssigned.length - 1 := by
      unfold size_sub1
      omega
    rcases maxAngleRefScan_idx ext c (List.range (size_sub1 c.fAssigned.length))
      (0, 0, ⟨0, 0, 0⟩) with h | h
    · rw [h]
      show 0 < c.fAssigned.length - 1
      omega
    · have hlt2 := List.mem_range.mp h
      omega
  · intro ext c ml
    refine ⟨maxAngleMinScan ext c ml
      (maxAngleRefScan ext c (List.range (size_sub1 c.fAssigned.length))
        (0, 0, ⟨0, 0, 0⟩)).2.1
      (maxAngleRefScan ext c (List.range (size_sub1 c.fAssigned.length))
        (0, 0, ⟨0, 0, 0⟩)).2.2
      (List.range c.fAssigned.length) 1, ?_, ?_, rfl⟩
    · exact (maxAngleMinScan_bounds ext c ml _ _ _ 1 zero_le_one).1
    · exact (maxAngleMinScan_bounds ext c ml _ _ _ 1 zero_le_one).2

/-- Witness for C4 (amended) at the concrete C4 instance. -/
theorem c4_maxAngle_characterization_witness :
    2 ≤ sC4.fAssigned.length ∧ sC4.fAssigned.length < 2 ^ 64 ∧
    (maxAngleRefScan extC4 sC4 (List.range (size_sub1 sC4.fAssigned.length))
      (0, 0, ⟨0, 0, 0⟩)).2.1 < sC4.fAssigned.length - 1 ∧
    (∃ m, 0 ≤ m ∧ m ≤ 1 ∧ maxAngle extC4 sC4 1 = 180 * extC4.acosQ m / extC4.piQ) :=
  ⟨by norm_num [sC4], by norm_num [sC4],
    c4_maxAngle_characterization.1 extC4 sC4 (by norm_num [sC4]) (by norm_num [sC4]),
    c4_maxAngle_characterization.2 extC4 sC4 1⟩

/-! Claim C2 (amended): failure disposition of `JoinTracks`. -/

/-- Erasing the first match leaves a sublist. -/
theorem extractFirst_sublist (b : ℕ) :
    ∀ ts : List TrkCandidate, (extractFirst b ts).2.Sublist ts := by
  intro ts
  induction ts with
  | nil => exact List.Sublist.refl []
  | cons s rest ih =>
    simp only [extractFirst]
    by_cases hb : s.trk = b
    · rw [if_pos hb]
      exact List.sublist_cons_self s rest
    · rw [if_neg hb]
      exact List.Sublist.cons₂ s ih

/-- With no duplicate track identities, erasing the first match for `b`
leaves no entry with track identity `b`. -/
theorem extractFirst_trk_not_mem (b : ℕ) :
    ∀ ts : List TrkCandidate, (ts.map TrkCandidate.trk).Nodup →
      b ∉ (extractFirst b ts).2.map TrkCandidate.trk := by
  intro ts
  induction ts with
  | nil => intro _ h; simp [extractFirst] at h
  | cons s rest ih =>
    intro hnd
    simp only [List.map_cons, List.nodup_cons] at hnd
    simp only [extractFirst]
    by_cases hb : s.trk = b
    · rw [if_pos hb]
      rw [← hb]
      exact hnd.1
    · rw [if_neg hb]
      simp only [List.map_cons, List.mem_cons]
      intro hcon
      rcases hcon with hcon | hcon
      · exact hb hcon.symm
      · exact ih hnd.2 hcon

/-- The removal loop only erases entries. -/
theorem removeBranches_sublist (brs : List ℕ) :
    ∀ ts : List TrkCandidate, (removeBranches brs ts).Sublist ts := by
  induction brs with
  | nil => intro ts; exact List.Sublist.refl ts
  | cons b rest ih =>
    intro ts
    have h1 : removeBranches (b :: rest) ts = removeBranches rest (extractFirst b ts).2 := rfl
    rw [h1]
    exact (ih (extractFirst b ts).2).trans (extractFirst_sublist b ts)

/-- After the removal loop, no listed branch remains among the track
identities (provided the collection held each track at most once). -/
theorem removeBranches_not_mem :
    ∀ (brs : List ℕ) (ts : List TrkCandidate) (b : ℕ),
      b ∈ brs → (ts.map TrkCandidate.trk).Nodup →
      b ∉ (removeBranches brs ts).map TrkCandidate.trk := by
  intro brs
  induction brs with
  | nil => intro ts b hb; simp at hb
  | cons b0 rest ih =>
    intro ts b hb hnd
    have h1 : removeBranches (b0 :: rest) ts = removeBranches rest (extractFirst b0 ts).2 := rfl
    rw [h1]
    rcases List.mem_cons.mp hb with hb | hb
    · subst hb
      intro hcon
      have hsub : ((removeBranches rest (extractFirst b ts).2).map TrkCandidate.trk).Sublist
          ((extractFirst b ts).2.map TrkCandidate.trk) :=
        (removeBranches_sublist rest (extractFirst b ts).2).map TrkCandidate.trk
      exact extractFirst_trk_not_mem b ts hnd (hsub.subset hcon)
    · have hnd2 : ((extractFirst b0 ts).2.map TrkCandidate.trk).Nodup :=
        ((extractFirst_sublist b0 ts).map TrkCandidate.trk).nodup hnd
      exact ih (extractFirst b0 ts).2 b hb hnd2

/-- C2 (amended): once the finalize step of `JoinTracks` has located the
vertex node and its root track, the failure disposition is: a detected
loop, or a diverged `TuneFullTree`, removes every listed branch from the
output `tracks` collection (and the loop erases each listed branch's
first occurrence, so none remains when the collection held each track at
most once) and returns `false`; but a loop-free subtree with fewer than
two successful attachments returns `false` WITHOUT removing anything
from `tracks`. -/
theorem c2_join_failure_disposition :
    (∀ (G : Type) (jx : JExt G) (c : VtxCandidate) (st : JoinState G)
      (src : List TrkCandidate) (v rs : ℕ),
      st.vtxCenter = some v → rootSegOf jx st.g v = .ok rs →
      ((jx.trkBranches st.g (joinRootTrk jx st.g rs)).1 = false →
        joinFinalize jx c st src = .ok (false, c, st.g,
          removeBranches (jx.trkBranches st.g (joinRootTrk jx st.g rs)).2 st.tracks,
          src)) ∧
      ((jx.trkBranches st.g (joinRootTrk jx st.g rs)).1 = true → st.nOK ≤ 1 →
        joinFinalize jx c st src = .ok (false, c, st.g, st.tracks, src)) ∧
      ((jx.trkBranches st.g (joinRootTrk jx st.g rs)).1 = true → 1 < st.nOK →
        (jx.tuneFullTree st.g (joinRootTrk jx st.g rs)).1 ≤ -2 →
        joinFinalize jx c st src = .ok (false,
          { c with fAssigned := [], fCenter := jx.pointOf st.g v,
                   fMse := 0, fMse2D := 0 },
          (jx.tuneFullTree st.g (joinRootTrk jx st.g rs)).2,
          removeBranches (jx.trkBranches st.g (joinRootTrk jx st.g rs)).2 st.tracks,
          src))) ∧
    (∀ (brs : List ℕ) (ts : List TrkCandidate) (b : ℕ),
      b ∈ brs → (ts.map TrkCandidate.trk).Nodup →
      b ∉ (removeBranches brs ts).map TrkCandidate.trk) := by
  refine ⟨?_, removeBranches_not_mem⟩
  intro G jx c st src v rs hv hrs
  refine ⟨?_, ?_, ?_⟩
  · intro hb
    unfold joinFinalize
    rw [hv]
    simp only []
    rw [hrs]
    simp only []
    rw [if_neg (by simp [hb]), if_neg (by simp [hb])]
  · intro hb hn
    unfold joinFinalize
    rw [hv]
    simp only []
    rw [hrs]
    simp only []
    rw [if_neg (fun hcon => absurd hcon.2 (by omega : ¬ 1 < st.nOK)), if_pos hb]
  · intro hb hn ht
    unfold joinFinalize
    rw [hv]
    simp only []
    rw [hrs]
    simp only []
    rw [if_pos ⟨hb, hn⟩, if_neg (not_lt.mpr ht)]

/-- Witness for C2 (amended) at the concrete C2 instance (loop-free,
`nOK = 1`): finalize returns `false` leaving `tracks` untouched; and on
the removal side, branch 1 is fully erased from a singleton collection. -/
theorem c2_join_failure_disposition_witness :
    joinFinalize jxC2 cC2 ⟨(), [⟨1, 5⟩], some 10, false, 1⟩ [] =
      .ok (false, cC2, (), [⟨1, 5⟩], []) ∧
    (1 : ℕ) ∉ (removeBranches [1] [⟨1, 5⟩]).map TrkCandidate.trk := by
  constructor
  · exact (c2_join_failure_disposition.1 Unit jxC2 cC2
      ⟨(), [⟨1, 5⟩], some 10, false, 1⟩ [] 10 100 rfl
      (by with_unfolding_all rfl)).2.1 (by with_unfolding_all rfl) (by norm_num)
  · exact c2_join_failure_disposition.2 [1] [⟨1, 5⟩] 1 (by simp) (by simp)

end PmaVtx
